import Mathlib

/-
  Verification development for the PixelNutLib effect engine
  (src/PixelNutEngine.cpp, src/includes/PixelNutEngine.h, src/PluginFactory.cpp).

  The engine is embedded shallowly: the layer stack and the track stack are
  Lean lists (list index = stack index, length - 1 = the C++ stack top index
  `indexLayerStack` / `indexTrackStack`), machine integers are Nat/Int with
  explicit wrap where the C++ arithmetic can overflow (uint32 times, int16
  trigger counts), the platform clock and `random()` are an explicit
  environment, the plugin factory is an environment function, and `malloc`
  success is an environment flag.  Plugins are opaque behaviours: a record of
  the `gettype()` bits together with the plugin's effect on the track's draw
  properties and redraw buffer at `trigger()` / `nextstep()` time.

  Two ghost fields are threaded through the state for specification purposes
  only and are written by no other code path: `destroyed` logs the serial
  numbers of plugin objects whose destructor has run (in order), and
  `fireLog` logs every `triggerLayer` call.  `nextSerial` numbers plugin
  objects in order of creation by the factory.
-/

namespace PixelNut

/-! ## Constants (PixelNutSupport.h is not part of src/; the bounds are
    modelled from the spec, which fixes MAX_PERCENTAGE = 100,
    MAX_WORD = 65535, MAX_BYTE = 255, MAX_FORCE = 1000 and leaves
    MAX_DEGREES_HUE, MAX_DELAY and MAX_PLUGIN_ID implementation chosen.) -/

def MAX_PERCENTAGE : Nat := 100

/-- Modelled from the spec: full hue circle, "implementation chooses 360 or
similar"; this model fixes the inclusive maximum at 359. -/
def MAX_DEGREES_HUE : Nat := 359

def MAX_FORCE_VALUE : Nat := 1000

def MAX_WORD_VALUE : Nat := 65535

def MAX_BYTE_VALUE : Nat := 255

/-- Modelled from the spec: MAX_DELAY is implementation-defined (msecs). -/
def MAX_DELAY_VALUE : Nat := 2000

/-- Modelled from the spec: MAX_PLUGIN_ID must cover the factory's ids. -/
def MAX_PLUGIN_VALUE : Nat := 32000

/-- Modelled from the spec: the REDRAW bit of the plugin `type()` bitmask. -/
def PLUGIN_TYPE_REDRAW : Nat := 1

/-- uint32 wrap for the millisecond clock arithmetic. -/
def u32 (n : Nat) : Nat := n % 4294967296

/-- int16 wrap: the C++ assignment of an int to the int16_t `trigCount`. -/
def toInt16 (n : Nat) : Int := (((n : Int) + 32768) % 65536) - 32768

/-! ## Data model -/

/-- One RGB pixel (three bytes of the byte buffers in the source). -/
structure RGB where
  r : Nat
  g : Nat
  b : Nat
deriving DecidableEq, Repr

def RGB.black : RGB := ⟨0, 0, 0⟩

/-- `PixelNutSupport::DrawProps` (the fields the engine itself reads or
writes; the derived RGB triple recomputed by `makeColorVals` is a pure
function of `degreeHue`/`pcentWhite`/`pcentBright` and is not represented,
so `makeColorVals` is the identity in this model). -/
structure DrawProps where
  pixStart : Nat
  pixLen : Nat
  pixCount : Nat
  degreeHue : Nat
  pcentWhite : Nat
  pcentBright : Nat
  msecsDelay : Nat
  goUpwards : Bool
  orPixelValues : Bool
deriving DecidableEq, Repr

/-- Behaviour of one plugin class, as visible to the engine: its type bits
and its effect on the track's draw properties and redraw buffer when
`trigger()` and `nextstep()` are called.  A predraw call runs with a null
draw sink, so only the draw-property effect applies there. -/
structure PluginSpec where
  ptype : Nat
  onTrigger : DrawProps → Int → DrawProps
  trigRender : DrawProps → Int → List RGB → List RGB
  onStep : DrawProps → DrawProps
  render : DrawProps → List RGB → List RGB

/-- A plugin object: its class behaviour plus a creation serial number
(ghost) identifying the object for the destruction log. -/
structure Plugin where
  spec : PluginSpec
  serial : Nat

/-- `PixelNutEngine::PluginLayer`.  The source field `trigExtern` is named
`trigExt` here. -/
structure PluginLayer where
  trigTimeMsecs : Nat
  trigCount : Int
  trigDelayMin : Nat
  trigDelayRange : Nat
  trigForce : Int
  trigActive : Bool
  trigExt : Bool
  trigSource : Nat
  track : Nat
  plugin : Plugin

/-- `PixelNutEngine::PluginTrack`.  `redrawBuff` holds `segCount` RGB
pixels (the source allocates `segCount*3` bytes). -/
structure PluginTrack where
  msTimeRedraw : Nat
  redrawBuff : List RGB
  draw : DrawProps
  layer : Nat
  ctrlBits : Nat
  segIndex : Nat
  disable : Bool
  segOffset : Nat
  segCount : Nat

/-- `PixelNutEngine::Status`. -/
inductive Status where
  | success
  | badVal
  | badCmd
  | memory
deriving DecidableEq, Repr

/-- The engine state (class data members).  `layers`/`tracks` are the two
stacks: list length - 1 equals `indexLayerStack`/`indexTrackStack`.
`destroyed`, `fireLog` and `nextSerial` are ghost instrumentation. -/
structure Engine where
  numPixels : Nat
  maxPluginLayers : Nat
  maxPluginTracks : Nat
  goUpwards : Bool
  pcentBright : Nat
  delayOffset : Int
  layers : List PluginLayer
  tracks : List PluginTrack
  indexTrackEnable : Int
  timePrevUpdate : Nat
  curForce : Int
  segOffset : Nat
  segCount : Nat
  externPropMode : Bool
  externDegreeHue : Nat
  externPcentWhite : Nat
  externPcentCount : Nat
  display : List RGB
  destroyed : List Nat
  fireLog : List (Nat × Int)
  nextSerial : Nat

/-- The external environment of one engine call: the millisecond clock
(`getMsecs`), the platform `random(lo, hi)`, the plugin factory
singleton, and whether `malloc` succeeds. -/
structure Env where
  now : Nat
  rand : Nat → Nat → Nat
  factory : Nat → Option PluginSpec
  allocOK : Bool

/-- The engine constructor (`PixelNutEngine::PixelNutEngine`). -/
def mkEngine (numPixels : Nat) (goupwards : Bool) (numLayers numTracks : Nat) : Engine :=
  { numPixels := numPixels
    maxPluginLayers := numLayers
    maxPluginTracks := numTracks
    goUpwards := goupwards
    pcentBright := MAX_PERCENTAGE
    delayOffset := 0
    layers := []
    tracks := []
    indexTrackEnable := -1
    timePrevUpdate := 0
    curForce := (MAX_FORCE_VALUE : Int) / 2
    segOffset := 0
    segCount := numPixels
    externPropMode := false
    externDegreeHue := 0
    externPcentWhite := 0
    externPcentCount := 0
    display := List.replicate numPixels RGB.black
    destroyed := []
    fireLog := []
    nextSerial := 0 }

/-! ## String-to-number helpers (PixelNutEngine.cpp lines 52-79) -/

/-- Leading-decimal-digits value, the `atoi` of a token tail whose first
character is known to be a digit. -/
def digitsToNat (acc : Nat) : List Char → Nat
  | [] => acc
  | c :: cs => if c.isDigit then digitsToNat (acc * 10 + (c.toNat - 48)) cs else acc

def atoiNat (cs : List Char) : Nat := digitsToNat 0 cs

/-- First character of the argument is a digit (C `isdigit(*str)`; an empty
tail reads the NUL terminator, which is not a digit). -/
def digitHead : List Char → Bool
  | [] => false
  | c :: _ => c.isDigit

/-- The strict two-argument `GetNumValue`: `none` models the -1 returned
when there is no value or it is outside `[0, maxval]`. -/
def getNumValueStrict (cs : List Char) (maxval : Nat) : Option Nat :=
  if digitHead cs then
    let v := atoiNat cs
    if v > maxval then none else some v
  else none

/-- The clipping three-argument `GetNumValue`: keep `curval` when no value
is given, otherwise clamp into `[0, maxval]`. -/
def getNumValueClip (cs : List Char) (curval maxval : Nat) : Nat :=
  if digitHead cs then
    let v := atoiNat cs
    if v > maxval then maxval else v
  else curval

/-- `GetBoolValue`: '0' is false, '1' is true, anything else toggles. -/
def getBoolValue (cs : List Char) (curval : Bool) : Bool :=
  match cs with
  | '0' :: _ => false
  | '1' :: _ => true
  | _ => !curval

/-- Modelled from the spec (PixelNutSupport is not in src/): the integer
mapper used for the pixel-count property, `map(n, 0..100, 1..segCount)`;
Arduino-style linear map with truncating division. -/
def mapValue (v inMin inMax outMin outMax : Nat) : Nat :=
  (v - inMin) * (outMax - outMin) / (inMax - inMin) + outMin

/-- Modelled from the spec (PixelNutSupport is not in src/): clip a value
into `[lo, hi]`. -/
def clipValue (v lo hi : Nat) : Nat := max lo (min v hi)

/-! ## Small state helpers -/

def modifyTrack (s : Engine) (i : Nat) (f : PluginTrack → PluginTrack) : Engine :=
  match s.tracks[i]? with
  | some t => { s with tracks := s.tracks.set i (f t) }
  | none => s

def modifyTopDraw (s : Engine) (f : DrawProps → DrawProps) : Engine :=
  modifyTrack s (s.tracks.length - 1) (fun t => { t with draw := f t.draw })

def modifyTopLayer (s : Engine) (f : PluginLayer → PluginLayer) : Engine :=
  match s.layers[s.layers.length - 1]? with
  | some L => { s with layers := s.layers.set (s.layers.length - 1) (f L) }
  | none => s

/-! ## clearStack (PixelNutEngine.cpp lines 87-121) -/

/-- The plugin destructions performed by `clearStack`, in order.  The track
loop runs from the top track down; for each track the layer loop deletes
`pluginLayers[j].pPlugin` for `j` from `pluginTracks[i].layer` while
`j < indexLayerStack` (strictly below the current top), then
`indexLayerStack -= count` leaves the new top at `pluginTracks[i].layer`.
`tracksRev` is the track stack reversed (top first); `idxTop` is the
current value of `indexLayerStack`. -/
def clearDelRev (layers : List PluginLayer) : List PluginTrack → Nat → List Nat
  | [], _ => []
  | t :: rest, idxTop =>
    ((layers.take idxTop).drop t.layer).map (fun L => L.plugin.serial)
      ++ clearDelRev layers rest t.layer

def clearDeletions (s : Engine) : List Nat :=
  clearDelRev s.layers s.tracks.reverse (s.layers.length - 1)

/-- `PixelNutEngine::clearStack`: run the deletion loops (logging the
destructor order), free the track buffers, reset all tops to -1, restore
the segment staging, and zero the display buffer. -/
def clearStack (s : Engine) : Engine :=
  { s with
    destroyed := s.destroyed ++ clearDeletions s
    layers := []
    tracks := []
    indexTrackEnable := -1
    segOffset := 0
    segCount := s.numPixels
    display := List.replicate s.numPixels RGB.black }

/-! ## NewPluginLayer (PixelNutEngine.cpp lines 124-224) -/

/-- The draw-property defaults installed for a freshly created track. -/
def defaultDraw (s : Engine) : DrawProps :=
  { pixStart := 0
    pixLen := s.segCount
    pixCount := 1
    degreeHue := 0
    pcentWhite := 0
    pcentBright := MAX_PERCENTAGE
    msecsDelay := 0
    goUpwards := s.goUpwards
    orPixelValues := true }

/-- The track record pushed for a new redraw plugin at layer `layerIdx`:
zeroed, then the segment staging copied in and the draw defaults
installed (`makeColorVals` recomputes only the unrepresented RGB
triple). -/
def newTrackRec (s : Engine) (layerIdx segindex : Nat) : PluginTrack :=
  { msTimeRedraw := 0
    redrawBuff := []
    draw := defaultDraw s
    layer := layerIdx
    ctrlBits := 0
    segIndex := segindex
    disable := false
    segOffset := s.segOffset
    segCount := s.segCount }

/-- The layer record pushed for a new plugin: zeroed, then the trigger
defaults installed. -/
def newLayerRec (curForce : Int) (spec : PluginSpec) (serial trackIdx : Nat) :
    PluginLayer :=
  { trigTimeMsecs := 0
    trigCount := -1
    trigDelayMin := 1
    trigDelayRange := 0
    trigForce := curForce
    trigActive := false
    trigExt := false
    trigSource := MAX_BYTE_VALUE
    track := trackIdx
    plugin := { spec := spec, serial := serial } }

/-- `PixelNutEngine::NewPluginLayer`.  The factory call is `env.factory`;
plugin object creation draws a fresh serial; `delete pPlugin` appends that
serial to the `destroyed` log; `malloc` success for the redraw buffer is
`env.allocOK`.  `pPlugin->begin()` only affects plugin-internal state and
has no engine-visible effect here. -/
def newPluginLayer (env : Env) (s : Engine) (pluginId : Nat) (segindex : Nat) :
    Status × Engine :=
  if s.layers.length ≥ s.maxPluginLayers then (.memory, s)
  else
    match env.factory pluginId with
    | none => (.badVal, s)
    | some spec =>
      let serial := s.nextSerial
      let s1 := { s with nextSerial := serial + 1 }
      let newtrack := spec.ptype &&& PLUGIN_TYPE_REDRAW ≠ 0
      if (!newtrack ∧ s1.tracks.length = 0) ∨
         (newtrack ∧ s1.tracks.length ≥ s1.maxPluginTracks) then
        (if newtrack then .memory else .badCmd,
         { s1 with destroyed := s1.destroyed ++ [serial] })
      else
        let layerIdx := s1.layers.length
        let trackIdx := if newtrack then s1.tracks.length else s1.tracks.length - 1
        let s2 :=
          if newtrack then
            { s1 with tracks := s1.tracks ++ [newTrackRec s1 layerIdx segindex] }
          else s1
        let s3 := { s2 with layers := s2.layers ++
            [newLayerRec s2.curForce spec serial trackIdx] }
        if newtrack then
          if env.allocOK then
            (.success,
             modifyTrack s3 trackIdx
               (fun t => { t with redrawBuff := List.replicate s3.segCount RGB.black }))
          else
            (.memory,
             { s3 with
               tracks := s3.tracks.dropLast
               layers := s3.layers.dropLast
               destroyed := s3.destroyed ++ [serial] })
        else (.success, s3)

/-! ## Trigger routines (PixelNutEngine.cpp lines 230-316, 391-418) -/

/-- `PixelNutEngine::RestorePropVals`. -/
def restorePropVals (pT : PluginTrack) (pixCount degreeHue pcentWhite : Nat) :
    PluginTrack :=
  if pT.disable then pT
  else
    let d0 := pT.draw
    let d1 := if pT.ctrlBits &&& 4 ≠ 0 then { d0 with pixCount := pixCount } else d0
    let d2 := if pT.ctrlBits &&& 1 ≠ 0 ∧ d1.degreeHue ≠ degreeHue then
        { d1 with degreeHue := degreeHue } else d1
    let d3 := if pT.ctrlBits &&& 2 ≠ 0 ∧ d2.pcentWhite ≠ pcentWhite then
        { d2 with pcentWhite := pcentWhite } else d2
    { pT with draw := d3 }

/-- `PixelNutEngine::triggerLayer`.  The draw sink is null for a predraw
layer (buffer untouched) and the track's redraw buffer for a redraw layer;
a redraw trigger also makes the track redraw immediately.  The fire is
recorded in the ghost `fireLog`. -/
def triggerLayer (env : Env) (s : Engine) (layer : Nat) (force : Int) : Engine :=
  match s.layers[layer]? with
  | none => s
  | some pL =>
    match s.tracks[pL.track]? with
    | none => s
    | some pT =>
      let predraw := pL.plugin.spec.ptype &&& PLUGIN_TYPE_REDRAW = 0
      let snapC := pT.draw.pixCount
      let snapH := pT.draw.degreeHue
      let snapW := pT.draw.pcentWhite
      let newDraw := pL.plugin.spec.onTrigger pT.draw force
      let newBuff := if predraw then pT.redrawBuff
        else pL.plugin.spec.trigRender pT.draw force pT.redrawBuff
      let pT1 := { pT with draw := newDraw, redrawBuff := newBuff }
      let pT2 := if s.externPropMode then restorePropVals pT1 snapC snapH snapW else pT1
      let pT3 := if !predraw then { pT2 with msTimeRedraw := env.now } else pT2
      { s with
        tracks := s.tracks.set pL.track pT3
        layers := s.layers.set layer { pL with trigActive := true }
        fireLog := s.fireLog ++ [(layer, force)] }

/-- The firing part of one `CheckAutoTrigger` iteration: fire layer `i`,
then re-arm its `trigTimeMsecs` from `random(trigDelayMin,
trigDelayMin+trigDelayRange+1)` seconds (uint32 wrap) and count the
(finite) trigger count down. -/
def autoFireRearm (env : Env) (s1 : Engine) (i : Nat) (force : Int) : Engine :=
  let s2 := triggerLayer env s1 i force
  match s2.layers[i]? with
  | none => s2
  | some L2 =>
    let rearm :=
      u32 (s2.timePrevUpdate +
        1000 * env.rand L2.trigDelayMin (L2.trigDelayMin + L2.trigDelayRange + 1))
    let L3 := { L2 with trigTimeMsecs := rearm }
    let L4 := if L3.trigCount > 0 then { L3 with trigCount := L3.trigCount - 1 } else L3
    { s2 with layers := s2.layers.set i L4 }

/-- Body of one iteration of the `CheckAutoTrigger` loop for layer `i`:
the rollover rebase, then the fire test, the fire, the re-arm and the
count-down. -/
def autoTriggerStep (env : Env) (rollover : Bool) (s : Engine) (i : Nat) : Engine :=
  match s.layers[i]? with
  | none => s
  | some L0 =>
    let L := if rollover ∧ L0.trigTimeMsecs > 0 then
        { L0 with trigTimeMsecs := s.timePrevUpdate } else L0
    let s1 := { s with layers := s.layers.set i L }
    if L.trigActive ∧ L.trigCount ≠ 0 ∧ L.trigTimeMsecs > 0 ∧
        L.trigTimeMsecs ≤ s1.timePrevUpdate then
      let force : Int := if L.trigForce ≥ 0 then L.trigForce
        else ((env.rand 0 (MAX_FORCE_VALUE + 1) : Nat) : Int)
      autoFireRearm env s1 i force
    else s1

/-- The `CheckAutoTrigger` layer loop: layers in order, stopping (break) at
the first layer whose track is beyond the enabled frontier; the break test
runs before the rollover rebase of that layer. -/
def checkAutoAux (env : Env) (rollover : Bool) : Nat → Nat → Engine → Engine
  | 0, _, s => s
  | fuel + 1, i, s =>
    match s.layers[i]? with
    | none => s
    | some L =>
      if (L.track : Int) > s.indexTrackEnable then s
      else checkAutoAux env rollover fuel (i + 1) (autoTriggerStep env rollover s i)

/-- `PixelNutEngine::CheckAutoTrigger`. -/
def checkAutoTrigger (env : Env) (rollover : Bool) (s : Engine) : Engine :=
  checkAutoAux env rollover s.layers.length 0 s

/-- Loop of the external-force `triggerForce(short)`. -/
def triggerExtGo (env : Env) (force : Int) : Nat → Nat → Engine → Engine
  | 0, _, s => s
  | fuel + 1, i, s =>
    match s.layers[i]? with
    | none => s
    | some L =>
      triggerExtGo env force fuel (i + 1)
        (if L.trigExt then triggerLayer env s i force else s)

/-- `PixelNutEngine::triggerForce(short force)`: store the force as the
default for new patterns, then fire every externally triggerable layer. -/
def triggerForceExt (env : Env) (s : Engine) (force : Int) : Engine :=
  let s1 := { s with curForce := force }
  triggerExtGo env force s1.layers.length 0 s1

/-- Loop of the two-argument `triggerForce(byte layer, short force)`. -/
def triggerSourceGo (env : Env) (layer : Nat) (force : Int) : Nat → Nat → Engine → Engine
  | 0, _, s => s
  | fuel + 1, i, s =>
    match s.layers[i]? with
    | none => s
    | some L =>
      triggerSourceGo env layer force fuel (i + 1)
        (if layer = L.trigSource then triggerLayer env s i force else s)

/-- `PixelNutEngine::triggerForce(byte layer, short force)`: fire every
layer whose `trigSource` equals `layer`. -/
def triggerForceFrom (env : Env) (s : Engine) (layer : Nat) (force : Int) : Engine :=
  triggerSourceGo env layer force s.layers.length 0 s

/-! ## Command interpreter (PixelNutEngine.cpp lines 425-650) -/

/-- One iteration of the `execCmdStr` token loop: dispatch on the first
character of the (already uppercased) token.  `segindex` is the local
`int segindex` of `execCmdStr`, threaded through the call's iterations and
starting at -1 on every call. -/
def execToken (env : Env) (s : Engine) (tok : List Char) (segindex : Int) :
    Status × Engine × Int :=
  match tok with
  | [] => (.badCmd, s, segindex)
  | c :: args =>
    if c = 'X' then
      (.success, { s with segOffset := (getNumValueStrict args (s.numPixels - 1)).getD 0 },
       segindex)
    else if c = 'Y' then
      match getNumValueStrict args (s.numPixels - s.segOffset) with
      | some n =>
        if n > 0 then (.success, { s with segCount := n }, segindex + 1)
        else (.success, { s with segCount := s.numPixels }, segindex)
      | none => (.success, { s with segCount := s.numPixels }, segindex)
    else if c = 'E' then
      match getNumValueStrict args MAX_PLUGIN_VALUE with
      | some pid =>
        let r := newPluginLayer env s pid (if segindex < 0 then 0 else segindex.toNat)
        (r.1, r.2, segindex)
      | none => (.badVal, s, segindex)
    else if c = 'P' then
      (.success, { clearStack s with timePrevUpdate := 0 }, segindex)
    else if s.tracks.length = 0 then (.badCmd, s, segindex)
    else if c = 'J' then
      (.success,
       modifyTopDraw s (fun d =>
         { d with pixStart :=
             getNumValueClip args 0 MAX_PERCENTAGE * (s.numPixels - 1) / MAX_PERCENTAGE }),
       segindex)
    else if c = 'K' then
      (.success,
       modifyTopDraw s (fun d =>
         { d with pixLen :=
             getNumValueClip args 0 MAX_PERCENTAGE * (s.numPixels - 1) / MAX_PERCENTAGE + 1 }),
       segindex)
    else if c = 'U' then
      (.success,
       modifyTopDraw s (fun d => { d with goUpwards := getBoolValue args d.goUpwards }),
       segindex)
    else if c = 'V' then
      (.success,
       modifyTopDraw s (fun d =>
         { d with orPixelValues := !getBoolValue args (!d.orPixelValues) }),
       segindex)
    else if c = 'H' then
      (.success,
       modifyTopDraw s (fun d =>
         { d with degreeHue := getNumValueClip args d.degreeHue MAX_DEGREES_HUE }),
       segindex)
    else if c = 'W' then
      (.success,
       modifyTopDraw s (fun d =>
         { d with pcentWhite := getNumValueClip args d.pcentWhite MAX_PERCENTAGE }),
       segindex)
    else if c = 'B' then
      (.success,
       modifyTopDraw s (fun d =>
         { d with pcentBright := getNumValueClip args d.pcentBright MAX_PERCENTAGE }),
       segindex)
    else if c = 'C' then
      (.success,
       modifyTopDraw s (fun d =>
         let curvalue := d.pixCount * MAX_PERCENTAGE / s.segCount
         let percent := getNumValueClip args curvalue MAX_PERCENTAGE
         { d with pixCount := mapValue percent 0 MAX_PERCENTAGE 1 s.segCount }),
       segindex)
    else if c = 'D' then
      (.success,
       modifyTopDraw s (fun d =>
         { d with msecsDelay := getNumValueClip args d.msecsDelay MAX_DELAY_VALUE }),
       segindex)
    else if c = 'Q' then
      match getNumValueStrict args 7 with
      | none => (.success, s, segindex)
      | some bits =>
        (.success,
         modifyTrack s (s.tracks.length - 1) (fun t =>
           let t1 := { t with ctrlBits := bits }
           if s.externPropMode then
             let d0 := t1.draw
             let d1 := if bits &&& 1 ≠ 0 then { d0 with degreeHue := s.externDegreeHue }
               else d0
             let d2 := if bits &&& 2 ≠ 0 then { d1 with pcentWhite := s.externPcentWhite }
               else d1
             let d3 := if bits &&& 4 ≠ 0 then
                 { d2 with pixCount :=
                     mapValue s.externPcentCount 0 MAX_PERCENTAGE 1 t.segCount }
               else d2
             { t1 with draw := d3 }
           else t1),
         segindex)
    else if c = 'I' then
      (.success,
       modifyTopLayer s (fun L =>
         if digitHead args then { L with trigExt := getBoolValue args false }
         else { L with trigExt := true }),
       segindex)
    else if c = 'A' then
      (.success,
       modifyTopLayer s (fun L =>
         { L with trigSource := getNumValueClip args 0 MAX_BYTE_VALUE }),
       segindex)
    else if c = 'F' then
      (.success,
       modifyTopLayer s (fun L =>
         if digitHead args then
           { L with trigForce := (getNumValueClip args 0 MAX_FORCE_VALUE : Int) }
         else { L with trigForce := -1 }),
       segindex)
    else if c = 'N' then
      (.success,
       modifyTopLayer s (fun L =>
         let v := toInt16 (getNumValueClip args 0 MAX_WORD_VALUE)
         { L with trigCount := if v = 0 then -1 else v }),
       segindex)
    else if c = 'O' then
      (.success,
       modifyTopLayer s (fun L =>
         let m := getNumValueClip args 1 MAX_WORD_VALUE
         { L with trigDelayMin := if m = 0 then 1 else m }),
       segindex)
    else if c = 'T' then
      match s.layers[s.layers.length - 1]? with
      | none => (.success, s, segindex)
      | some L0 =>
        let force : Int := if L0.trigForce < 0 then
            ((env.rand 0 (MAX_FORCE_VALUE + 1) : Nat) : Int)
          else L0.trigForce
        let s1 :=
          if digitHead args then
            modifyTopLayer s (fun L =>
              let L1 := { L with trigDelayRange := getNumValueClip args 0 MAX_WORD_VALUE }
              let armed := u32 (env.now +
                1000 * env.rand L1.trigDelayMin (L1.trigDelayMin + L1.trigDelayRange + 1))
              { L1 with trigTimeMsecs := armed })
          else s
        (.success, triggerLayer env s1 (s1.layers.length - 1) force, segindex)
    else if c = 'G' then
      (.success,
       if s.indexTrackEnable ≠ (s.tracks.length : Int) - 1 then
         { s with indexTrackEnable := (s.tracks.length : Int) - 1 }
       else s,
       segindex)
    else (.badCmd, s, segindex)

/-- The `execCmdStr` token loop: execute tokens left to right, stopping at
the first non-success status. -/
def execTokens (env : Env) : List (List Char) → Engine → Int → Status × Engine
  | [], s, _ => (.success, s)
  | t :: rest, s, seg =>
    let r := execToken env s t seg
    if r.1 = .success then execTokens env rest r.2.1 r.2.2 else (r.1, r.2.1)

/-- Split a character list at spaces, dropping empty fields, as
`strtok(buf, " ")` iterated does.  `acc` holds the current token
reversed. -/
def splitTokens : List Char → List Char → List (List Char)
  | [], acc => if acc.isEmpty then [] else [acc.reverse]
  | c :: cs, acc =>
    if c = ' ' then
      if acc.isEmpty then splitTokens cs [] else acc.reverse :: splitTokens cs []
    else splitTokens cs (c :: acc)

/-- Tokenize a command string the way `execCmdStr` does: uppercase every
character, then split on spaces (`strtok` skips empty fields). -/
def tokenize (str : String) : List (List Char) :=
  splitTokens (str.toList.map Char.toUpper) []

/-- `PixelNutEngine::execCmdStr`: the local `segindex` starts at -1 on
every call. -/
def execCmdStr (env : Env) (s : Engine) (str : String) : Status × Engine :=
  execTokens env (tokenize str) s (-1)

/-! ## Compositor (PixelNutEngine.cpp lines 718-803)

The source walks byte offsets `x = pix*3` and `y = srcpix*3`; the model
walks the pixel indices `pix` and `y` directly over `List RGB` buffers. -/

/-- Advance of the source index `y`: wrap to 0 upon reaching the last
pixel of the strip (`if (y >= pixlast*3) y = 0; else y += 3`). -/
def nextSrc (pixlast y : Nat) : Nat := if y ≥ pixlast then 0 else y + 1

/-- One blend step at display pixel `pix` from source pixel `y`: OR the
triple into the display, or overwrite when the source is not black. -/
def mergeStep (orv : Bool) (buff : List RGB) (disp : List RGB) (pv : Nat × Nat) :
    List RGB :=
  let src := buff.getD pv.2 RGB.black
  if orv then
    let old := disp.getD pv.1 RGB.black
    disp.set pv.1 ⟨old.r ||| src.r, old.g ||| src.g, old.b ||| src.b⟩
  else if src ≠ RGB.black then disp.set pv.1 src
  else disp

/-- The (display, source) index pairs visited by the compositor's inner
`while(true)` loop, in order.  The recursion mirrors the loop exactly:
blend, stop at the end pixel, advance `pix` with wrap-around on
`[0, pixlast]` (up or down) and `y` with upward wrap-around.  `fuel` bounds
the iteration count; the callers pass `numPixels`, which suffices whenever
`pixstart` and `pixend` lie in `[0, pixlast]` (the loop in the source does
not terminate outside that domain). -/
def mergeVisitsGo (up : Bool) (pixstart pixend pixlast : Nat) :
    Nat → Nat → Nat → List (Nat × Nat)
  | 0, _, _ => []
  | fuel + 1, pix, y =>
    (pix, y) ::
      (if up then
        if pix = pixend then []
        else mergeVisitsGo up pixstart pixend pixlast fuel
          (if pix ≥ pixlast then 0 else pix + 1) (nextSrc pixlast y)
      else
        if pix = pixstart then []
        else mergeVisitsGo up pixstart pixend pixlast fuel
          (if pix = 0 then pixlast else pix - 1) (nextSrc pixlast y))

/-- The inner merge loop itself, performing the blend at each visited
pair; same recursion structure as `mergeVisitsGo`. -/
def mergeLoopGo (orv : Bool) (buff : List RGB) (up : Bool)
    (pixstart pixend pixlast : Nat) :
    Nat → Nat → Nat → List RGB → List RGB
  | 0, _, _, disp => disp
  | fuel + 1, pix, y, disp =>
    let disp1 := mergeStep orv buff disp (pix, y)
    if up then
      if pix = pixend then disp1
      else mergeLoopGo orv buff up pixstart pixend pixlast fuel
        (if pix ≥ pixlast then 0 else pix + 1) (nextSrc pixlast y) disp1
    else
      if pix = pixstart then disp1
      else mergeLoopGo orv buff up pixstart pixend pixlast fuel
        (if pix = 0 then pixlast else pix - 1) (nextSrc pixlast y) disp1

/-- The adjusted window bounds for one track: `pixstart`/`pixend` with the
single wrap-around subtraction the source applies. -/
def trackWindow (numPixels : Nat) (t : PluginTrack) : Nat × Nat :=
  let pixlast := numPixels - 1
  let ps0 := t.segOffset + t.draw.pixStart
  let ps := if ps0 > pixlast then ps0 - (pixlast + 1) else ps0
  let pe0 := ps + t.draw.pixLen - 1
  let pe := if pe0 > pixlast then pe0 - (pixlast + 1) else pe0
  (ps, pe)

/-- The visit list of one track's merge. -/
def trackVisits (numPixels : Nat) (t : PluginTrack) : List (Nat × Nat) :=
  let pixlast := numPixels - 1
  let w := trackWindow numPixels t
  mergeVisitsGo t.draw.goUpwards w.1 w.2 pixlast numPixels
    (if t.draw.goUpwards then w.1 else w.2) t.draw.pixStart

/-- Merge one track's redraw buffer into the display. -/
def mergeTrack (numPixels : Nat) (t : PluginTrack) (disp : List RGB) : List RGB :=
  let pixlast := numPixels - 1
  let w := trackWindow numPixels t
  mergeLoopGo t.draw.orPixelValues t.redrawBuff t.draw.goUpwards w.1 w.2 pixlast
    numPixels (if t.draw.goUpwards then w.1 else w.2) t.draw.pixStart disp

/-- Whether the layer owning track `t` is a redraw plugin (the guard
`pluginLayers[pTrack->layer].pPlugin->gettype() & PLUGIN_TYPE_REDRAW`). -/
def redrawTypeOf (s : Engine) (t : PluginTrack) : Bool :=
  match s.layers[t.layer]? with
  | some L => L.plugin.spec.ptype &&& PLUGIN_TYPE_REDRAW ≠ 0
  | none => false

/-- The track loop of the compositor: tracks in stack order, break at the
first index beyond the enabled frontier, skipping tracks whose owning
layer is not a redraw plugin. -/
def mergeTracksGo (s : Engine) : Nat → Nat → List RGB → List RGB
  | 0, _, disp => disp
  | fuel + 1, i, disp =>
    match s.tracks[i]? with
    | none => disp
    | some t =>
      if (i : Int) > s.indexTrackEnable then disp
      else
        mergeTracksGo s fuel (i + 1)
          (if redrawTypeOf s t then mergeTrack s.numPixels t disp else disp)

/-- The whole compositor pass: zero the display buffer, then merge every
enabled redraw track in stack order. -/
def compositeDisplay (s : Engine) : List RGB :=
  mergeTracksGo s s.tracks.length 0 (List.replicate s.numPixels RGB.black)

/-! ## Scheduler (PixelNutEngine.cpp lines 652-814) -/

/-- The predraw pass over track `i`: every triggered non-redraw layer of
the track runs `nextstep` in layer order with a null draw sink, so only
its draw-property effect applies. -/
def predrawFold (s : Engine) (i : Nat) (d : DrawProps) : DrawProps :=
  (List.range s.layers.length).foldl (fun d j =>
    match s.layers[j]? with
    | some L =>
      if L.track = i ∧ L.trigActive ∧ L.plugin.spec.ptype &&& PLUGIN_TYPE_REDRAW = 0 then
        L.plugin.spec.onStep d
      else d
    | none => d) d

/-- The body of the redraw loop of `updateEffects` for track `i`. -/
def updateTrackStep (_env : Env) (rollover : Bool) (sd : Engine × Bool) (i : Nat) :
    Engine × Bool :=
  let s := sd.1
  match s.tracks[i]? with
  | none => sd
  | some t0 =>
    match s.layers[t0.layer]? with
    | none => sd
    | some rl =>
      if rl.plugin.spec.ptype &&& PLUGIN_TYPE_REDRAW = 0 then sd
      else
        let t1 := if rollover then { t0 with msTimeRedraw := s.timePrevUpdate } else t0
        let s1 := { s with tracks := s.tracks.set i t1 }
        if !rl.trigActive then (s1, sd.2)
        else if t1.msTimeRedraw > s1.timePrevUpdate then (s1, sd.2)
        else
          let snapC := t1.draw.pixCount
          let snapH := t1.draw.degreeHue
          let snapW := t1.draw.pcentWhite
          let t2 := { t1 with draw := predrawFold s1 i t1.draw }
          let t3 := if s1.externPropMode then restorePropVals t2 snapC snapH snapW else t2
          let t4 := { t3 with
            draw := rl.plugin.spec.onStep t3.draw
            redrawBuff := rl.plugin.spec.render t3.draw t3.redrawBuff }
          let addtime0 : Int := (t4.draw.msecsDelay : Int) + s1.delayOffset
          let addtime := if addtime0 ≤ 0 then 1 else addtime0
          let t5 := { t4 with msTimeRedraw := u32 (s1.timePrevUpdate + addtime.toNat) }
          ({ s1 with tracks := s1.tracks.set i t5 }, true)

/-- The redraw loop of `updateEffects`: tracks in order, break at the
first index beyond the enabled frontier. -/
def updateTracksGo (env : Env) (rollover : Bool) : Nat → Nat → Engine × Bool →
    Engine × Bool
  | 0, _, sd => sd
  | fuel + 1, i, sd =>
    match sd.1.tracks[i]? with
    | none => sd
    | some _ =>
      if (i : Int) > sd.1.indexTrackEnable then sd
      else updateTracksGo env rollover fuel (i + 1) (updateTrackStep env rollover sd i)

/-- `PixelNutEngine::updateEffects`: read the clock, detect rollover, run
the auto-trigger check, step every due redraw track, and composite the
display when anything drew (or on the first call after a clear). -/
def updateEffects (env : Env) (s : Engine) : Bool × Engine :=
  let doshow0 := s.timePrevUpdate = 0
  let rollover := decide (s.timePrevUpdate > env.now)
  let s1 := { s with timePrevUpdate := env.now }
  let s2 := checkAutoTrigger env rollover s1
  let sd := updateTracksGo env rollover s2.tracks.length 0 (s2, doshow0)
  if sd.2 then (true, { sd.1 with display := compositeDisplay sd.1 })
  else (false, sd.1)

/-- Iterated ticks: run `updateEffects` once per environment (clock
reading) in the list. -/
def runUpdates (envs : List Env) (s : Engine) : Engine :=
  envs.foldl (fun s e => (updateEffects e s).2) s

/-- Number of `triggerLayer` calls recorded for layer `i` (ghost). -/
def firesOf (s : Engine) (i : Nat) : Nat :=
  (s.fireLog.filter (fun e => e.1 = i)).length

/-! ## Specification-side definitions used by the theorems -/

/-- Everything of the engine state except the ghost instrumentation
(`destroyed`, `nextSerial`): the observable engine state. -/
def Engine.obs (s : Engine) :=
  (s.numPixels, s.maxPluginLayers, s.maxPluginTracks, s.goUpwards, s.pcentBright,
   s.delayOffset, s.layers, s.tracks, s.indexTrackEnable, s.timePrevUpdate,
   s.curForce, s.segOffset, s.segCount, s.externPropMode, s.externDegreeHue,
   s.externPcentWhite, s.externPcentCount, s.display, s.fireLog)

/-- Componentwise bitwise OR of two pixels. -/
def orRGB (a b : RGB) : RGB := ⟨a.r ||| b.r, a.g ||| b.g, a.b ||| b.b⟩

/-- Bitwise OR over a list of pixels. -/
def orFold (l : List RGB) : RGB := l.foldl orRGB RGB.black

/-- The source indices among `visits` that target display pixel `p`. -/
def visitSources (p : Nat) (visits : List (Nat × Nat)) : List Nat :=
  visits.filterMap (fun v => if v.1 = p then some v.2 else none)

/-- The OR of the bytes track `t` contributes to display pixel `p` over
its window walk. -/
def trackOr (numPixels : Nat) (t : PluginTrack) (p : Nat) : RGB :=
  orFold ((visitSources p (trackVisits numPixels t)).map
    (fun y => t.redrawBuff.getD y RGB.black))

/-- The tracks the compositor actually merges, in order: from index `i`,
stopping at the enabled frontier, keeping redraw-typed tracks. -/
def consideredFrom (s : Engine) : Nat → Nat → List PluginTrack
  | 0, _ => []
  | fuel + 1, i =>
    match s.tracks[i]? with
    | none => []
    | some t =>
      if (i : Int) > s.indexTrackEnable then []
      else (if redrawTypeOf s t then [t] else []) ++ consideredFrom s fuel (i + 1)

/-- The in-range draw-property bounds of spec section 8 (with the
engine-wide pixel count as the pixel-count bound). -/
def dpOK (N : Nat) (d : DrawProps) : Prop :=
  1 ≤ d.pixCount ∧ d.pixCount ≤ N ∧ d.pcentWhite ≤ MAX_PERCENTAGE ∧
  d.pcentBright ≤ MAX_PERCENTAGE ∧ d.degreeHue ≤ MAX_DEGREES_HUE

/-- A plugin behaviour that never drives the draw properties out of
range. -/
def specOK (N : Nat) (spec : PluginSpec) : Prop :=
  (∀ d f, dpOK N d → dpOK N (spec.onTrigger d f)) ∧
  (∀ d, dpOK N d → dpOK N (spec.onStep d))

/-- The engine-wide range invariant. -/
def engOK (s : Engine) : Prop :=
  1 ≤ s.numPixels ∧ 1 ≤ s.segCount ∧ s.segCount ≤ s.numPixels ∧
  s.externDegreeHue ≤ MAX_DEGREES_HUE ∧ s.externPcentWhite ≤ MAX_PERCENTAGE ∧
  s.externPcentCount ≤ MAX_PERCENTAGE ∧
  (∀ t ∈ s.tracks, dpOK s.numPixels t.draw ∧ 1 ≤ t.segCount ∧
    t.segCount ≤ s.numPixels) ∧
  (∀ L ∈ s.layers, specOK s.numPixels L.plugin.spec)

/-- All plugins the factory can produce are well-behaved. -/
def envOK (N : Nat) (env : Env) : Prop :=
  ∀ pid spec, env.factory pid = some spec → specOK N spec

/-- A lawful platform `random(lo, hi)`: result in `[lo, hi)`. -/
def randOK (env : Env) : Prop :=
  ∀ a b, a < b → a ≤ env.rand a b ∧ env.rand a b < b

/-- Every layer's track index is a live track (true in every reachable
state; the source indexes the track array unchecked). -/
def layersWF (s : Engine) : Prop :=
  ∀ L ∈ s.layers, L.track < s.tracks.length

/-! ## Concrete test fixtures -/

/-- A do-nothing plugin behaviour with the given type bits. -/
def trivialSpec (t : Nat) : PluginSpec :=
  { ptype := t
    onTrigger := fun d _ => d
    trigRender := fun _ _ b => b
    onStep := fun d => d
    render := fun _ b => b }

/-- A two-entry test factory: id 0 is a redraw plugin, id 100 a predraw
plugin (mirroring the id bands of PluginFactory.cpp). -/
def testFactory : Nat → Option PluginSpec :=
  fun pid =>
    if pid = 0 then some (trivialSpec PLUGIN_TYPE_REDRAW)
    else if pid = 100 then some (trivialSpec 0) else none

/-- Deterministic environment: clock at 0, `random(lo,hi) = lo`. -/
def testEnv : Env :=
  { now := 0, rand := fun a _ => a, factory := testFactory, allocOK := true }

/-- Same environment with `malloc` failing. -/
def failEnv : Env :=
  { now := 0, rand := fun a _ => a, factory := testFactory, allocOK := false }

/-- A 10-pixel engine with 4 layers / 3 tracks, as in the spec's
end-to-end scenarios. -/
def eng10 : Engine := mkEngine 10 true 4 3

/-- `eng10` after one redraw effect was added by "E0". -/
def engTrack : Engine := (execCmdStr testEnv eng10 "E0").2

/-- `engTrack` with the window start moved by "J50" (pixStart = 4). -/
def engJ : Engine := (execCmdStr testEnv engTrack "J50").2

/-- Engine with four layers on two tracks (serials 0..3; tracks start at
layers 0 and 2), for the clearStack evaluation. -/
def engClear : Engine := (execCmdStr testEnv eng10 "E0 E100 E0 E100").2

/-- `eng10` after a "Y4" staging command in its own call (the staged
segment count persists across calls; the claim is about `seg_index`). -/
def engY4 : Engine := (execCmdStr testEnv eng10 "Y4").2

/-- A default full-strip draw-property record for hand-built states. -/
def baseDraw : DrawProps :=
  { pixStart := 0, pixLen := 10, pixCount := 1, degreeHue := 0, pcentWhite := 0,
    pcentBright := 100, msecsDelay := 0, goUpwards := true, orPixelValues := true }

/-- A hand-built full-strip redraw track owned by layer 0. -/
def baseTrack : PluginTrack :=
  { msTimeRedraw := 0, redrawBuff := List.replicate 10 RGB.black, draw := baseDraw,
    layer := 0, ctrlBits := 0, segIndex := 0, disable := false, segOffset := 0,
    segCount := 10 }

/-- A hand-built redraw layer on track 0 with default trigger state. -/
def baseLayer : PluginLayer :=
  { trigTimeMsecs := 0, trigCount := -1, trigDelayMin := 1, trigDelayRange := 0,
    trigForce := 0, trigActive := false, trigExt := false, trigSource := 255,
    track := 0, plugin := { spec := trivialSpec PLUGIN_TYPE_REDRAW, serial := 0 } }

/-- `baseLayer` armed for auto-triggering at time 5. -/
def engArmedLayer : PluginLayer := { baseLayer with trigTimeMsecs := 5 }

/-- Engine whose only layer is armed (trigTimeMsecs = 5) but whose track
is beyond the enabled frontier (no G command was run); the previous
update time is 100. -/
def engNotEnabled : Engine :=
  { eng10 with
    layers := [engArmedLayer]
    tracks := [baseTrack]
    indexTrackEnable := -1
    timePrevUpdate := 100 }

/-- The same engine with the track enabled. -/
def engEnabled : Engine := { engNotEnabled with indexTrackEnable := 0 }

/-- `engEnabled` with its armed layer given a finite trigger count of 2
(as set by an "N2" command before the "T" arm). -/
def engCount : Engine :=
  { engEnabled with layers := [{ engArmedLayer with trigCount := 2 }] }

/-- Draw properties for the 4-pixel compositor fixture. -/
def wDraw : DrawProps :=
  { pixStart := 0, pixLen := 4, pixCount := 1, degreeHue := 0, pcentWhite := 0,
    pcentBright := 100, msecsDelay := 0, goUpwards := true, orPixelValues := true }

/-- First compositor-fixture track with a concrete redraw buffer. -/
def wTrack1 : PluginTrack :=
  { msTimeRedraw := 0, redrawBuff := [⟨1, 0, 0⟩, ⟨0, 2, 0⟩, ⟨0, 0, 3⟩, ⟨4, 0, 0⟩],
    draw := wDraw, layer := 0, ctrlBits := 0, segIndex := 0, disable := false,
    segOffset := 0, segCount := 4 }

/-- Second compositor-fixture track with a concrete redraw buffer. -/
def wTrack2 : PluginTrack :=
  { msTimeRedraw := 0, redrawBuff := [⟨8, 0, 0⟩, ⟨0, 8, 0⟩, ⟨0, 0, 8⟩, ⟨8, 8, 8⟩],
    draw := wDraw, layer := 1, ctrlBits := 0, segIndex := 0, disable := false,
    segOffset := 0, segCount := 4 }

/-- A 4-pixel engine with two enabled full-strip OR-blending tracks. -/
def engComp : Engine :=
  { mkEngine 4 true 4 3 with
    layers := [baseLayer, { baseLayer with track := 1 }]
    tracks := [wTrack1, wTrack2]
    indexTrackEnable := 1 }

/-- Engine with two layers on one track: layer 0 keeps the default
`trigSource` 255 (never assigned), layer 1 has `trigSource` 3. -/
def engMix : Engine :=
  { eng10 with
    layers := [baseLayer, { baseLayer with trigSource := 3 }]
    tracks := [baseTrack]
    indexTrackEnable := 0 }

/-! # Shared lemmas -/

theorem set_concat_length {α : Type} (l : List α) (a v : α) :
    (l ++ [a]).set l.length v = l ++ [v] := by
  induction l with
  | nil => rfl
  | cons x xs ih => simp [List.set, ih]

theorem newPluginLayer_layers_full (env : Env) (s : Engine) (pid si : Nat)
    (h : s.layers.length ≥ s.maxPluginLayers) :
    newPluginLayer env s pid si = (.memory, s) := by
  simp [newPluginLayer, h]

theorem newPluginLayer_factory_none (env : Env) (s : Engine) (pid si : Nat)
    (h : ¬ s.layers.length ≥ s.maxPluginLayers) (hf : env.factory pid = none) :
    newPluginLayer env s pid si = (.badVal, s) := by
  simp [newPluginLayer, h, hf]

theorem newPluginLayer_predraw_no_track (env : Env) (s : Engine) (pid si : Nat)
    (spec : PluginSpec)
    (h : ¬ s.layers.length ≥ s.maxPluginLayers) (hf : env.factory pid = some spec)
    (hp : spec.ptype &&& PLUGIN_TYPE_REDRAW = 0) (ht : s.tracks.length = 0) :
    newPluginLayer env s pid si =
      (.badCmd, { s with nextSerial := s.nextSerial + 1,
                         destroyed := s.destroyed ++ [s.nextSerial] }) := by
  simp [newPluginLayer, h, hf, hp, ht]

theorem newPluginLayer_track_full (env : Env) (s : Engine) (pid si : Nat)
    (spec : PluginSpec)
    (h : ¬ s.layers.length ≥ s.maxPluginLayers) (hf : env.factory pid = some spec)
    (hp : spec.ptype &&& PLUGIN_TYPE_REDRAW ≠ 0)
    (ht : s.tracks.length ≥ s.maxPluginTracks) :
    newPluginLayer env s pid si =
      (.memory, { s with nextSerial := s.nextSerial + 1,
                         destroyed := s.destroyed ++ [s.nextSerial] }) := by
  simp [newPluginLayer, h, hf, hp, ht]

theorem newPluginLayer_alloc_fail (env : Env) (s : Engine) (pid si : Nat)
    (spec : PluginSpec)
    (h : ¬ s.layers.length ≥ s.maxPluginLayers) (hf : env.factory pid = some spec)
    (hp : spec.ptype &&& PLUGIN_TYPE_REDRAW ≠ 0)
    (ht : ¬ s.tracks.length ≥ s.maxPluginTracks) (ha : env.allocOK = false) :
    newPluginLayer env s pid si =
      (.memory, { s with nextSerial := s.nextSerial + 1,
                         destroyed := s.destroyed ++ [s.nextSerial] }) := by
  simp [newPluginLayer, h, hf, eq_false hp, ht, ha, List.dropLast_concat]

theorem newPluginLayer_redraw_ok (env : Env) (s : Engine) (pid si : Nat)
    (spec : PluginSpec)
    (h : ¬ s.layers.length ≥ s.maxPluginLayers) (hf : env.factory pid = some spec)
    (hp : spec.ptype &&& PLUGIN_TYPE_REDRAW ≠ 0)
    (ht : ¬ s.tracks.length ≥ s.maxPluginTracks) (ha : env.allocOK = true) :
    newPluginLayer env s pid si =
      (.success,
       { s with
         nextSerial := s.nextSerial + 1
         tracks := s.tracks ++
           [{ newTrackRec s s.layers.length si with
              redrawBuff := List.replicate s.segCount RGB.black }]
         layers := s.layers ++
           [newLayerRec s.curForce spec s.nextSerial s.tracks.length] }) := by
  simp [newPluginLayer, h, hf, eq_false hp, ht, ha, modifyTrack,
    List.getElem?_concat_length, set_concat_length, newTrackRec, defaultDraw]

theorem newPluginLayer_predraw_ok (env : Env) (s : Engine) (pid si : Nat)
    (spec : PluginSpec)
    (h : ¬ s.layers.length ≥ s.maxPluginLayers) (hf : env.factory pid = some spec)
    (hp : spec.ptype &&& PLUGIN_TYPE_REDRAW = 0) (ht : s.tracks.length ≠ 0) :
    newPluginLayer env s pid si =
      (.success,
       { s with
         nextSerial := s.nextSerial + 1
         layers := s.layers ++
           [newLayerRec s.curForce spec s.nextSerial (s.tracks.length - 1)] }) := by
  simp [newPluginLayer, h, hf, hp, ht]

theorem triggerLayer_stable (env : Env) (s : Engine) (m : Nat) (f : Int) :
    (triggerLayer env s m f).layers.length = s.layers.length ∧
    (triggerLayer env s m f).tracks.length = s.tracks.length ∧
    (triggerLayer env s m f).indexTrackEnable = s.indexTrackEnable ∧
    (triggerLayer env s m f).timePrevUpdate = s.timePrevUpdate := by
  cases h1 : s.layers[m]? with
  | none => simp [triggerLayer, h1]
  | some pL =>
    cases h2 : s.tracks[pL.track]? with
    | none => simp [triggerLayer, h1, h2]
    | some pT => simp [triggerLayer, h1, h2]

theorem triggerLayer_get_ne (env : Env) (s : Engine) (m : Nat) (f : Int)
    (j : Nat) (hj : j ≠ m) :
    (triggerLayer env s m f).layers[j]? = s.layers[j]? := by
  cases h1 : s.layers[m]? with
  | none => simp [triggerLayer, h1]
  | some pL =>
    cases h2 : s.tracks[pL.track]? with
    | none => simp [triggerLayer, h1, h2]
    | some pT => simp [triggerLayer, h1, h2, List.getElem?_set_ne (Ne.symm hj)]

theorem triggerLayer_get_cases (env : Env) (s : Engine) (m : Nat) (f : Int)
    (j : Nat) :
    (triggerLayer env s m f).layers[j]? = s.layers[j]? ∨
    ∃ L, j = m ∧ s.layers[m]? = some L ∧
      (triggerLayer env s m f).layers[j]? = some { L with trigActive := true } := by
  by_cases hj : j = m
  · subst hj
    cases h1 : s.layers[j]? with
    | none => exact Or.inl (by simp [triggerLayer, h1])
    | some pL =>
      cases h2 : s.tracks[pL.track]? with
      | none => exact Or.inl (by simp [triggerLayer, h1, h2])
      | some pT =>
        refine Or.inr ⟨pL, rfl, rfl, ?_⟩
        have hlt : j < s.layers.length := by
          by_contra hc
          rw [List.getElem?_eq_none (Nat.le_of_not_lt hc)] at h1
          exact Option.noConfusion h1
        simp [triggerLayer, h1, h2, List.getElem?_set_eq_of_lt _ hlt]
  · exact Or.inl (triggerLayer_get_ne env s m f j hj)

theorem triggerLayer_fires (env : Env) (s : Engine) (m : Nat) (f : Int)
    (L : PluginLayer) (h : s.layers[m]? = some L)
    (ht : L.track < s.tracks.length) :
    (triggerLayer env s m f).layers[m]? = some { L with trigActive := true } ∧
    (triggerLayer env s m f).fireLog = s.fireLog ++ [(m, f)] := by
  have hlt : m < s.layers.length := by
    by_contra hc
    rw [List.getElem?_eq_none (Nat.le_of_not_lt hc)] at h
    exact Option.noConfusion h
  have hpT := List.getElem?_eq_getElem ht
  constructor
  · simp [triggerLayer, h, hpT, List.getElem?_set_eq_of_lt _ hlt]
  · simp [triggerLayer, h, hpT]

theorem triggerLayer_fireLog_cases (env : Env) (s : Engine) (m : Nat) (f : Int) :
    (triggerLayer env s m f).fireLog = s.fireLog ∨
    (triggerLayer env s m f).fireLog = s.fireLog ++ [(m, f)] := by
  cases h1 : s.layers[m]? with
  | none => exact Or.inl (by simp [triggerLayer, h1])
  | some pL =>
    cases h2 : s.tracks[pL.track]? with
    | none => exact Or.inl (by simp [triggerLayer, h1, h2])
    | some pT => exact Or.inr (by simp [triggerLayer, h1, h2])

theorem autoFireRearm_stable (env : Env) (s1 : Engine) (i : Nat) (force : Int) :
    (autoFireRearm env s1 i force).layers.length = s1.layers.length ∧
    (autoFireRearm env s1 i force).tracks.length = s1.tracks.length ∧
    (autoFireRearm env s1 i force).indexTrackEnable = s1.indexTrackEnable ∧
    (autoFireRearm env s1 i force).timePrevUpdate = s1.timePrevUpdate := by
  unfold autoFireRearm
  simp only []
  obtain ⟨e1, e2, e3, e4⟩ := triggerLayer_stable env s1 i force
  cases h2 : (triggerLayer env s1 i force).layers[i]? with
  | none => exact ⟨e1, e2, e3, e4⟩
  | some L2 => simp [e1, e2, e3, e4]

theorem autoFireRearm_get_ne (env : Env) (s1 : Engine) (i : Nat) (force : Int)
    (j : Nat) (hj : j ≠ i) :
    (autoFireRearm env s1 i force).layers[j]? = s1.layers[j]? := by
  unfold autoFireRearm
  simp only []
  cases h2 : (triggerLayer env s1 i force).layers[i]? with
  | none => exact triggerLayer_get_ne env s1 i force j hj
  | some L2 =>
    rw [List.getElem?_set_ne (Ne.symm hj)]
    exact triggerLayer_get_ne env s1 i force j hj

theorem autoTriggerStep_stable (env : Env) (ro : Bool) (s : Engine) (i : Nat) :
    (autoTriggerStep env ro s i).layers.length = s.layers.length ∧
    (autoTriggerStep env ro s i).tracks.length = s.tracks.length ∧
    (autoTriggerStep env ro s i).indexTrackEnable = s.indexTrackEnable ∧
    (autoTriggerStep env ro s i).timePrevUpdate = s.timePrevUpdate := by
  unfold autoTriggerStep
  cases h1 : s.layers[i]? with
  | none => exact ⟨rfl, rfl, rfl, rfl⟩
  | some L0 =>
    simp only []
    set L := (if ro = true ∧ 0 < L0.trigTimeMsecs then
      { L0 with trigTimeMsecs := s.timePrevUpdate } else L0) with hL
    split
    · obtain ⟨e1, e2, e3, e4⟩ := autoFireRearm_stable env
        { s with layers := s.layers.set i L } i
        (if L.trigForce ≥ 0 then L.trigForce
          else ((env.rand 0 (MAX_FORCE_VALUE + 1) : Nat) : Int))
      refine ⟨?_, ?_, ?_, ?_⟩ <;> simp [e1, e2, e3, e4]
    · simp

theorem autoTriggerStep_get_ne (env : Env) (ro : Bool) (s : Engine) (i j : Nat)
    (hj : j ≠ i) :
    (autoTriggerStep env ro s i).layers[j]? = s.layers[j]? := by
  unfold autoTriggerStep
  cases h1 : s.layers[i]? with
  | none => rfl
  | some L0 =>
    have hset : ∀ L : PluginLayer, (s.layers.set i L)[j]? = s.layers[j]? :=
      fun L => List.getElem?_set_ne (Ne.symm hj)
    simp only []
    set L := (if ro = true ∧ 0 < L0.trigTimeMsecs then
      { L0 with trigTimeMsecs := s.timePrevUpdate } else L0) with hL
    split
    · rw [autoFireRearm_get_ne env _ i _ j hj]
      exact hset _
    · exact hset _

theorem autoTriggerStep_rebase_nofire (env : Env) (s : Engine) (i : Nat)
    (L : PluginLayer) (h1 : s.layers[i]? = some L) (harm : L.trigTimeMsecs > 0)
    (hnf : ¬(L.trigActive ∧ L.trigCount ≠ 0)) :
    (autoTriggerStep env true s i).layers[i]? =
      some { L with trigTimeMsecs := s.timePrevUpdate } := by
  have hlt : i < s.layers.length := by
    by_contra hc
    rw [List.getElem?_eq_none (Nat.le_of_not_lt hc)] at h1
    exact Option.noConfusion h1
  unfold autoTriggerStep
  rw [h1]
  simp only []
  split
  · split
    · rename_i hfire
      exact absurd ⟨hfire.1, hfire.2.1⟩ hnf
    · exact List.getElem?_set_eq_of_lt _ hlt
  · rename_i hcond
    exact absurd ⟨by trivial, harm⟩ hcond

theorem checkAutoAux_get_lt (env : Env) (ro : Bool) :
    ∀ fuel i0 s i, i < i0 →
      (checkAutoAux env ro fuel i0 s).layers[i]? = s.layers[i]? := by
  intro fuel
  induction fuel with
  | zero => intro i0 s i _; rfl
  | succ n ih =>
    intro i0 s i hi
    unfold checkAutoAux
    split
    · rfl
    · split
      · rfl
      · rw [ih (i0 + 1) _ i (by omega),
          autoTriggerStep_get_ne env ro s i0 i (by omega)]

theorem checkAutoAux_break_untouched (env : Env) (ro : Bool) :
    ∀ fuel i0 s i j Lj, i0 ≤ j → j ≤ i → s.layers[j]? = some Lj →
      (Lj.track : Int) > s.indexTrackEnable →
      (checkAutoAux env ro fuel i0 s).layers[i]? = s.layers[i]? := by
  intro fuel
  induction fuel with
  | zero => intro i0 s i j Lj _ _ _ _; rfl
  | succ n ih =>
    intro i0 s i j Lj h0j hji h hgt
    unfold checkAutoAux
    split
    · rfl
    · rename_i L hL
      split
      · rfl
      · rename_i hle
        by_cases he : i0 = j
        · subst he
          rw [hL] at h
          cases h
          exact absurd hgt hle
        · have h0j' : i0 < j := Nat.lt_of_le_of_ne h0j he
          obtain ⟨e1, e2, e3, e4⟩ := autoTriggerStep_stable env ro s i0
          rw [ih (i0 + 1) _ i j Lj (by omega) hji
            (by rw [autoTriggerStep_get_ne env ro s i0 j (by omega)]; exact h)
            (by rw [e3]; exact hgt)]
          exact autoTriggerStep_get_ne env ro s i0 i (by omega)

theorem checkAutoAux_rebase (env : Env) :
    ∀ fuel i0 s i L, i0 ≤ i → i < i0 + fuel → s.layers[i]? = some L →
      L.trigTimeMsecs > 0 →
      (∀ j Lj, i0 ≤ j → j ≤ i → s.layers[j]? = some Lj →
        (Lj.track : Int) ≤ s.indexTrackEnable) →
      ¬(L.trigActive ∧ L.trigCount ≠ 0) →
      (checkAutoAux env true fuel i0 s).layers[i]? =
        some { L with trigTimeMsecs := s.timePrevUpdate } := by
  intro fuel
  induction fuel with
  | zero => intro i0 s i L h0 hfu; omega
  | succ n ih =>
    intro i0 s i L h0 hfu h harm hfr hnf
    have hlt : i < s.layers.length := by
      by_contra hc
      rw [List.getElem?_eq_none (Nat.le_of_not_lt hc)] at h
      exact Option.noConfusion h
    unfold checkAutoAux
    split
    · rename_i h1
      have hlen : s.layers.length ≤ i0 := List.getElem?_eq_none_iff.mp h1
      rw [List.getElem?_eq_none (le_trans hlen h0)] at h
      exact Option.noConfusion h
    · rename_i L0 hL0
      split
      · rename_i hgt
        exact absurd (hfr i0 L0 le_rfl h0 hL0) (not_le.mpr hgt)
      · by_cases he : i0 = i
        · subst he
          rw [hL0] at h
          injection h with hE
          rw [checkAutoAux_get_lt env true n (i0 + 1) _ i0 (by omega)]
          rw [← hE] at harm hnf ⊢
          exact autoTriggerStep_rebase_nofire env s i0 L0 hL0 harm hnf
        · have h0i : i0 < i := Nat.lt_of_le_of_ne h0 he
          obtain ⟨e1, e2, e3, e4⟩ := autoTriggerStep_stable env true s i0
          rw [ih (i0 + 1) _ i L (by omega) (by omega)
            (by rw [autoTriggerStep_get_ne env true s i0 i (by omega)]; exact h)
            harm
            (fun j Lj hj1 hj2 hj3 => by
              rw [e3]
              exact hfr j Lj (by omega) hj2
                (by rw [autoTriggerStep_get_ne env true s i0 j (by omega)] at hj3
                    exact hj3))
            hnf, e4]

theorem triggerLayer_wf (env : Env) (s : Engine) (m : Nat) (f : Int)
    (h : layersWF s) : layersWF (triggerLayer env s m f) := by
  cases h1 : s.layers[m]? with
  | none => simpa [triggerLayer, h1] using h
  | some pL =>
    cases h2 : s.tracks[pL.track]? with
    | none => simpa [triggerLayer, h1, h2] using h
    | some pT =>
      intro L' hL'
      have e2 := (triggerLayer_stable env s m f).2.1
      rw [e2]
      simp only [triggerLayer, h1, h2] at hL'
      rcases List.mem_or_eq_of_mem_set hL' with h3 | h3
      · exact h L' h3
      · subst h3
        have hm : pL ∈ s.layers := List.getElem?_mem h1
        exact h pL hm

theorem triggerSourceGo_spec (env : Env) (layer : Nat) (force : Int) :
    ∀ fuel i0 s, layersWF s →
      ∀ (j : Nat) (L : PluginLayer), s.layers[j]? = some L →
        ((i0 ≤ j ∧ j < i0 + fuel ∧ layer = L.trigSource →
          (triggerSourceGo env layer force fuel i0 s).layers[j]? =
            some { L with trigActive := true }) ∧
         (¬(i0 ≤ j ∧ j < i0 + fuel ∧ layer = L.trigSource) →
          (triggerSourceGo env layer force fuel i0 s).layers[j]? = some L)) := by
  intro fuel
  induction fuel with
  | zero =>
    intro i0 s _ j L h
    exact ⟨fun hc => absurd hc.2.1 (by omega), fun _ => h⟩
  | succ n ih =>
    intro i0 s hwf j L h
    have hjlt : j < s.layers.length := by
      by_contra hc
      rw [List.getElem?_eq_none (Nat.le_of_not_lt hc)] at h
      exact Option.noConfusion h
    unfold triggerSourceGo
    cases h1 : s.layers[i0]? with
    | none =>
      have hlen : s.layers.length ≤ i0 := List.getElem?_eq_none_iff.mp h1
      exact ⟨fun hc => absurd hc.1 (by omega), fun _ => h⟩
    | some L0 =>
      simp only []
      by_cases hm : layer = L0.trigSource
      · rw [if_pos hm]
        have hwf' := triggerLayer_wf env s i0 force hwf
        have hfire := triggerLayer_fires env s i0 force L0 h1
          (hwf L0 (List.getElem?_mem h1))
        by_cases hji : j = i0
        · subst hji
          rw [h1] at h
          injection h with hE
          subst hE
          have hIH := ih (j + 1) (triggerLayer env s j force) hwf'
            j { L0 with trigActive := true } hfire.1
          constructor
          · intro _
            exact hIH.2 (by omega)
          · intro hneg
            exact absurd ⟨le_rfl, by omega, hm⟩ hneg
        · have hj' : (triggerLayer env s i0 force).layers[j]? = some L := by
            rw [triggerLayer_get_ne env s i0 force j hji]
            exact h
          have hIH := ih (i0 + 1) (triggerLayer env s i0 force) hwf' j L hj'
          constructor
          · intro hc
            exact hIH.1 ⟨by omega, by omega, hc.2.2⟩
          · intro hneg
            refine hIH.2 (fun hc => hneg ⟨by omega, by omega, hc.2.2⟩)
      · rw [if_neg hm]
        have hIH := ih (i0 + 1) s hwf j L h
        by_cases hji : j = i0
        · subst hji
          rw [h1] at h
          injection h with hE
          subst hE
          constructor
          · intro hc
            exact absurd hc.2.2 hm
          · intro _
            exact hIH.2 (fun hc => by omega)
        · constructor
          · intro hc
            exact hIH.1 ⟨by omega, by omega, hc.2.2⟩
          · intro hneg
            refine hIH.2 (fun hc => hneg ⟨by omega, by omega, hc.2.2⟩)

theorem orRGB_black_left (x : RGB) : orRGB RGB.black x = x := by
  simp [orRGB, RGB.black]

theorem orRGB_black_right (x : RGB) : orRGB x RGB.black = x := by
  simp [orRGB, RGB.black]

theorem orRGB_assoc (a b c : RGB) : orRGB (orRGB a b) c = orRGB a (orRGB b c) := by
  simp [orRGB, Nat.lor_assoc]

theorem foldl_orRGB_eq (l : List RGB) :
    ∀ a, l.foldl orRGB a = orRGB a (orFold l) := by
  induction l with
  | nil => intro a; simp [orFold, orRGB_black_right]
  | cons x l ih =>
    intro a
    show l.foldl orRGB (orRGB a x) = orRGB a (orFold (x :: l))
    rw [ih (orRGB a x)]
    have hx : orFold (x :: l) = orRGB x (orFold l) := by
      show l.foldl orRGB (orRGB RGB.black x) = _
      rw [orRGB_black_left, ih x]
    rw [hx, orRGB_assoc]

theorem orFold_cons (x : RGB) (l : List RGB) :
    orFold (x :: l) = orRGB x (orFold l) := by
  show l.foldl orRGB (orRGB RGB.black x) = _
  rw [orRGB_black_left, foldl_orRGB_eq]

theorem mergeStep_length (orv : Bool) (buff disp : List RGB) (pv : Nat × Nat) :
    (mergeStep orv buff disp pv).length = disp.length := by
  unfold mergeStep
  simp only []
  split
  · exact List.length_set ..
  · split
    · exact List.length_set ..
    · rfl

theorem foldl_mergeStep_length (orv : Bool) (buff : List RGB)
    (L : List (Nat × Nat)) :
    ∀ disp : List RGB, (L.foldl (mergeStep orv buff) disp).length = disp.length := by
  induction L with
  | nil => intro disp; rfl
  | cons pv L ih =>
    intro disp
    show (L.foldl (mergeStep orv buff) (mergeStep orv buff disp pv)).length = _
    rw [ih, mergeStep_length]

theorem getD_set_self {α : Type} (l : List α) (i : Nat) (v d : α)
    (h : i < l.length) : (l.set i v).getD i d = v := by
  simp [List.getD, List.getElem?_set_eq_of_lt _ h]

theorem getD_set_ne {α : Type} (l : List α) (i j : Nat) (v d : α)
    (h : i ≠ j) : (l.set i v).getD j d = l.getD j d := by
  simp [List.getD, List.getElem?_set_ne h]

theorem foldl_mergeStep_or (buff : List RGB) (L : List (Nat × Nat)) :
    ∀ (disp : List RGB) (p : Nat), p < disp.length →
      (L.foldl (mergeStep true buff) disp).getD p RGB.black =
        orRGB (disp.getD p RGB.black)
          (orFold ((visitSources p L).map (fun y => buff.getD y RGB.black))) := by
  induction L with
  | nil =>
    intro disp p _
    simp [visitSources, orFold, orRGB_black_right]
  | cons pv L ih =>
    intro disp p hp
    have hstep : (mergeStep true buff disp pv).length = disp.length :=
      mergeStep_length ..
    show (L.foldl (mergeStep true buff) (mergeStep true buff disp pv)).getD p RGB.black = _
    rw [ih (mergeStep true buff disp pv) p (by rw [hstep]; exact hp)]
    by_cases hq : pv.1 = p
    · have hsrc : visitSources p (pv :: L) = pv.2 :: visitSources p L := by
        simp [visitSources, hq]
      rw [hsrc]
      have hstep2 : (mergeStep true buff disp pv).getD p RGB.black =
          orRGB (disp.getD p RGB.black) (buff.getD pv.2 RGB.black) := by
        unfold mergeStep
        simp only [if_pos rfl]
        rw [hq]
        exact getD_set_self disp p _ RGB.black hp
      rw [hstep2, List.map_cons, orFold_cons, orRGB_assoc]
    · have hsrc : visitSources p (pv :: L) = visitSources p L := by
        simp [visitSources, hq]
      rw [hsrc]
      have hstep2 : (mergeStep true buff disp pv).getD p RGB.black =
          disp.getD p RGB.black := by
        unfold mergeStep
        simp only [if_pos rfl]
        exact getD_set_ne disp pv.1 p _ RGB.black hq
      rw [hstep2]

theorem mergeLoopGo_eq_foldl (orv : Bool) (buff : List RGB) (up : Bool)
    (ps pe pl : Nat) :
    ∀ fuel pix y disp,
      mergeLoopGo orv buff up ps pe pl fuel pix y disp =
        (mergeVisitsGo up ps pe pl fuel pix y).foldl (mergeStep orv buff) disp := by
  intro fuel
  induction fuel with
  | zero => intro pix y disp; rfl
  | succ n ih =>
    intro pix y disp
    unfold mergeLoopGo mergeVisitsGo
    cases up with
    | true =>
      simp only [eq_self_iff_true, if_true]
      by_cases he : pix = pe
      · simp [he]
      · simp only [if_neg he, List.foldl_cons]
        exact ih ..
    | false =>
      simp only [Bool.false_eq_true, if_false]
      by_cases he : pix = ps
      · simp [he]
      · simp only [if_neg he, List.foldl_cons]
        exact ih ..

theorem mergeTrack_length (N : Nat) (t : PluginTrack) (disp : List RGB) :
    (mergeTrack N t disp).length = disp.length := by
  unfold mergeTrack
  rw [mergeLoopGo_eq_foldl]
  exact foldl_mergeStep_length ..

theorem mergeTrack_or (N : Nat) (t : PluginTrack) (disp : List RGB) (p : Nat)
    (hp : p < disp.length) (horv : t.draw.orPixelValues = true) :
    (mergeTrack N t disp).getD p RGB.black =
      orRGB (disp.getD p RGB.black) (trackOr N t p) := by
  unfold mergeTrack trackOr trackVisits
  rw [horv, mergeLoopGo_eq_foldl]
  exact foldl_mergeStep_or t.redrawBuff _ disp p hp

theorem mergeTracksGo_length (s : Engine) :
    ∀ fuel i disp, (mergeTracksGo s fuel i disp).length = disp.length := by
  intro fuel
  induction fuel with
  | zero => intro i disp; rfl
  | succ n ih =>
    intro i disp
    unfold mergeTracksGo
    cases h1 : s.tracks[i]? with
    | none => rfl
    | some t =>
      simp only []
      split
      · rfl
      · rw [ih]
        split
        · exact mergeTrack_length ..
        · rfl

theorem mergeTracksGo_or (s : Engine) :
    ∀ fuel i disp p, p < disp.length →
      (∀ t ∈ consideredFrom s fuel i, t.draw.orPixelValues = true) →
      (mergeTracksGo s fuel i disp).getD p RGB.black =
        orRGB (disp.getD p RGB.black)
          (orFold ((consideredFrom s fuel i).map (fun t => trackOr s.numPixels t p))) := by
  intro fuel
  induction fuel with
  | zero =>
    intro i disp p _ _
    simp [mergeTracksGo, consideredFrom, orFold, orRGB_black_right]
  | succ n ih =>
    intro i disp p hp hall
    unfold mergeTracksGo consideredFrom
    cases h1 : s.tracks[i]? with
    | none => simp [orFold, orRGB_black_right]
    | some t =>
      simp only []
      split
      · simp [orFold, orRGB_black_right]
      · rename_i hle
        by_cases hrd : redrawTypeOf s t = true
        · have hmem : t ∈ consideredFrom s (n + 1) i := by
            unfold consideredFrom
            rw [h1]
            simp [hrd, if_neg hle]
          have horv : t.draw.orPixelValues = true := hall t hmem
          have hall' : ∀ u ∈ consideredFrom s n (i + 1),
              u.draw.orPixelValues = true := by
            intro u hu
            refine hall u ?_
            unfold consideredFrom
            rw [h1]
            simp [hrd, if_neg hle, hu]
          rw [hrd]
          simp only [eq_self_iff_true, if_true]
          rw [ih (i + 1) (mergeTrack s.numPixels t disp) p
              (by rw [mergeTrack_length]; exact hp) hall',
            mergeTrack_or s.numPixels t disp p hp horv]
          simp only [List.singleton_append, List.map_cons, orFold_cons, orRGB_assoc]
        · have hrd' : redrawTypeOf s t = false := by
            cases hx : redrawTypeOf s t
            · rfl
            · exact absurd hx hrd
          rw [hrd']
          simp only [Bool.false_eq_true, if_false, List.nil_append]
          rw [ih (i + 1) disp p hp (by
            intro u hu
            refine hall u ?_
            unfold consideredFrom
            rw [h1]
            simp [hrd', if_neg hle, hu])]

theorem firesOf_triggerLayer_le (env : Env) (s : Engine) (m : Nat) (f : Int)
    (i : Nat) :
    firesOf (triggerLayer env s m f) i ≤ firesOf s i + 1 ∧
    (m ≠ i → firesOf (triggerLayer env s m f) i = firesOf s i) := by
  rcases triggerLayer_fireLog_cases env s m f with h | h <;> unfold firesOf <;> rw [h]
  · exact ⟨Nat.le_add_right .., fun _ => rfl⟩
  · rw [List.filter_append, List.length_append]
    constructor
    · have : (List.filter (fun e => e.1 = i) [(m, f)]).length ≤ 1 :=
        List.length_filter_le ..
      omega
    · intro hne
      simp [List.filter, hne]

theorem triggerLayer_trigCount (env : Env) (s : Engine) (m : Nat) (f : Int)
    (j : Nat) :
    ((triggerLayer env s m f).layers[j]?).map (fun L => L.trigCount) =
      (s.layers[j]?).map (fun L => L.trigCount) := by
  rcases triggerLayer_get_cases env s m f j with h | ⟨L, hj, hL, h⟩
  · rw [h]
  · subst hj
    rw [h, hL]
    rfl

theorem triggerLayer_trigDelay (env : Env) (s : Engine) (m : Nat) (f : Int)
    (j : Nat) :
    ((triggerLayer env s m f).layers[j]?).map
        (fun L => (L.trigDelayMin, L.trigDelayRange)) =
      (s.layers[j]?).map (fun L => (L.trigDelayMin, L.trigDelayRange)) := by
  rcases triggerLayer_get_cases env s m f j with h | ⟨L, hj, hL, h⟩
  · rw [h]
  · subst hj
    rw [h, hL]
    rfl

theorem fireLog_mono_triggerLayer (env : Env) (s : Engine) (m : Nat) (f : Int) :
    ∃ tail, (triggerLayer env s m f).fireLog = s.fireLog ++ tail := by
  rcases triggerLayer_fireLog_cases env s m f with h | h
  · exact ⟨[], by simpa using h⟩
  · exact ⟨[(m, f)], h⟩

theorem fireLog_mono_autoFireRearm (env : Env) (s1 : Engine) (m : Nat) (f : Int) :
    ∃ tail, (autoFireRearm env s1 m f).fireLog = s1.fireLog ++ tail := by
  unfold autoFireRearm
  simp only []
  obtain ⟨tail, htail⟩ := fireLog_mono_triggerLayer env s1 m f
  cases h2 : (triggerLayer env s1 m f).layers[m]? with
  | none => exact ⟨tail, htail⟩
  | some L2 => exact ⟨tail, htail⟩

theorem fireLog_mono_autoTriggerStep (env : Env) (ro : Bool) (s : Engine)
    (m : Nat) :
    ∃ tail, (autoTriggerStep env ro s m).fireLog = s.fireLog ++ tail := by
  unfold autoTriggerStep
  cases h1 : s.layers[m]? with
  | none => exact ⟨[], by simp⟩
  | some L0 =>
    simp only []
    set L := (if ro = true ∧ 0 < L0.trigTimeMsecs then
      { L0 with trigTimeMsecs := s.timePrevUpdate } else L0) with hL
    split
    · exact fireLog_mono_autoFireRearm ..
    · exact ⟨[], by simp⟩

theorem fireLog_mono_checkAutoAux (env : Env) (ro : Bool) :
    ∀ fuel i0 s, ∃ tail,
      (checkAutoAux env ro fuel i0 s).fireLog = s.fireLog ++ tail := by
  intro fuel
  induction fuel with
  | zero => intro i0 s; exact ⟨[], by simp [checkAutoAux]⟩
  | succ n ih =>
    intro i0 s
    unfold checkAutoAux
    cases h1 : s.layers[i0]? with
    | none => exact ⟨[], by simp⟩
    | some L =>
      simp only []
      split
      · exact ⟨[], by simp⟩
      · obtain ⟨t1, h1'⟩ := fireLog_mono_autoTriggerStep env ro s i0
        obtain ⟨t2, h2'⟩ := ih (i0 + 1) (autoTriggerStep env ro s i0)
        exact ⟨t1 ++ t2, by rw [h2', h1', List.append_assoc]⟩

theorem firesOf_set_layers (s : Engine) (l : List PluginLayer) (i : Nat) :
    firesOf { s with layers := l } i = firesOf s i := rfl

theorem autoFireRearm_measure (env : Env) (s1 : Engine) (m : Nat) (force : Int)
    (i : Nat) (c : Int)
    (hc : (s1.layers[i]?).map (fun L => L.trigCount) = some c) (h0 : 0 ≤ c)
    (hne : m = i → c ≠ 0) :
    ∃ c2 : Int,
      ((autoFireRearm env s1 m force).layers[i]?).map (fun L => L.trigCount) =
        some c2 ∧ 0 ≤ c2 ∧
      firesOf (autoFireRearm env s1 m force) i + c2.toNat ≤
        firesOf s1 i + c.toNat := by
  unfold autoFireRearm
  simp only []
  have hcnt := triggerLayer_trigCount env s1 m force i
  have hfl := firesOf_triggerLayer_le env s1 m force i
  cases h2 : (triggerLayer env s1 m force).layers[m]? with
  | none =>
    simp only []
    refine ⟨c, by rw [hcnt]; exact hc, h0, ?_⟩
    by_cases hmi : m = i
    · subst hmi
      have hnone : Option.map (fun L => L.trigCount)
          (triggerLayer env s1 m force).layers[m]? = none := by rw [h2]; rfl
      rw [hcnt, hc] at hnone
      exact Option.noConfusion hnone
    · rw [hfl.2 hmi]
  | some L2 =>
    simp only []
    by_cases hmi : m = i
    · subst hmi
      have hL2c : L2.trigCount = c := by
        rw [h2] at hcnt
        rw [hc] at hcnt
        injection hcnt
      have hm_lt : m < (triggerLayer env s1 m force).layers.length := by
        by_contra hcl
        rw [List.getElem?_eq_none (Nat.le_of_not_lt hcl)] at h2
        exact Option.noConfusion h2
      have hcpos : c ≠ 0 := hne rfl
      by_cases hpos : L2.trigCount > 0
      · refine ⟨c - 1, ?_, by omega, ?_⟩
        · rw [List.getElem?_set_eq_of_lt _ hm_lt]
          have hcp : (0 : Int) < c := hL2c ▸ hpos
          simp [hpos, hL2c, hcp]
        · rw [firesOf_set_layers]
          have h1 := hfl.1
          omega
      · exfalso
        rw [hL2c] at hpos
        omega
    · refine ⟨c, ?_, h0, ?_⟩
      · rw [List.getElem?_set_ne (fun hx => hmi hx), hcnt]
        exact hc
      · rw [firesOf_set_layers, hfl.2 hmi]

theorem autoTriggerStep_measure (env : Env) (ro : Bool) (s : Engine) (m i : Nat)
    (c : Int) (hc : (s.layers[i]?).map (fun L => L.trigCount) = some c)
    (h0 : 0 ≤ c) :
    ∃ c2 : Int,
      ((autoTriggerStep env ro s m).layers[i]?).map (fun L => L.trigCount) =
        some c2 ∧ 0 ≤ c2 ∧
      firesOf (autoTriggerStep env ro s m) i + c2.toNat ≤ firesOf s i + c.toNat := by
  unfold autoTriggerStep
  cases h1 : s.layers[m]? with
  | none => exact ⟨c, hc, h0, le_rfl⟩
  | some L0 =>
    simp only []
    set L := (if ro = true ∧ 0 < L0.trigTimeMsecs then
      { L0 with trigTimeMsecs := s.timePrevUpdate } else L0) with hL
    have hLL0 : L.trigCount = L0.trigCount := by
      rw [hL]
      split <;> rfl
    have hc1 : (({ s with layers := s.layers.set m L } : Engine).layers[i]?).map
        (fun L => L.trigCount) = some c := by
      by_cases hmi : m = i
      · subst hmi
        have hmlt : m < s.layers.length := by
          by_contra hcl
          rw [List.getElem?_eq_none (Nat.le_of_not_lt hcl)] at h1
          exact Option.noConfusion h1
        rw [h1] at hc
        simp only [Option.map_some'] at hc
        show ((s.layers.set m L)[m]?).map (fun L => L.trigCount) = some c
        rw [List.getElem?_set_eq_of_lt _ hmlt]
        simp [hLL0, hc]
      · show ((s.layers.set m L)[i]?).map (fun L => L.trigCount) = some c
        rw [List.getElem?_set_ne (fun hx => hmi hx)]
        exact hc
    split
    · rename_i hfire
      refine autoFireRearm_measure env _ m _ i c hc1 h0 ?_
      intro hmi h0c
      apply hfire.2.1
      subst hmi
      have hmlt : m < s.layers.length := by
        by_contra hcl
        rw [List.getElem?_eq_none (Nat.le_of_not_lt hcl)] at h1
        exact Option.noConfusion h1
      rw [h1] at hc
      simp only [Option.map_some', Option.some.injEq] at hc
      rw [hLL0]
      omega
    · exact ⟨c, hc1, h0, by rw [firesOf_set_layers]⟩

theorem checkAutoAux_measure (env : Env) (ro : Bool) :
    ∀ fuel i0 s i (c : Int),
      (s.layers[i]?).map (fun L => L.trigCount) = some c → 0 ≤ c →
      ∃ c2 : Int,
        ((checkAutoAux env ro fuel i0 s).layers[i]?).map (fun L => L.trigCount) =
          some c2 ∧ 0 ≤ c2 ∧
        firesOf (checkAutoAux env ro fuel i0 s) i + c2.toNat ≤
          firesOf s i + c.toNat := by
  intro fuel
  induction fuel with
  | zero => intro i0 s i c hc h0; exact ⟨c, hc, h0, le_rfl⟩
  | succ n ih =>
    intro i0 s i c hc h0
    unfold checkAutoAux
    cases h1 : s.layers[i0]? with
    | none => exact ⟨c, hc, h0, le_rfl⟩
    | some L =>
      simp only []
      split
      · exact ⟨c, hc, h0, le_rfl⟩
      · obtain ⟨c1, hc1, h01, hm1⟩ := autoTriggerStep_measure env ro s i0 i c hc h0
        obtain ⟨c2, hc2, h02, hm2⟩ :=
          ih (i0 + 1) (autoTriggerStep env ro s i0) i c1 hc1 h01
        exact ⟨c2, hc2, h02, by omega⟩

theorem updateTrackStep_layers (env : Env) (ro : Bool) (sd : Engine × Bool)
    (i : Nat) :
    (updateTrackStep env ro sd i).1.layers = sd.1.layers ∧
    (updateTrackStep env ro sd i).1.fireLog = sd.1.fireLog := by
  unfold updateTrackStep
  simp only []
  repeat' split
  all_goals exact ⟨rfl, rfl⟩

theorem updateTracksGo_layers (env : Env) (ro : Bool) :
    ∀ fuel i sd,
      (updateTracksGo env ro fuel i sd).1.layers = sd.1.layers ∧
      (updateTracksGo env ro fuel i sd).1.fireLog = sd.1.fireLog := by
  intro fuel
  induction fuel with
  | zero => intro i sd; exact ⟨rfl, rfl⟩
  | succ n ih =>
    intro i sd
    unfold updateTracksGo
    cases h1 : sd.1.tracks[i]? with
    | none => exact ⟨rfl, rfl⟩
    | some t =>
      simp only []
      split
      · exact ⟨rfl, rfl⟩
      · have h2 := ih (i + 1) (updateTrackStep env ro sd i)
        have h3 := updateTrackStep_layers env ro sd i
        exact ⟨h2.1.trans h3.1, h2.2.trans h3.2⟩

theorem fireLog_set_display (x : Engine) (l : List RGB) :
    ({ x with display := l } : Engine).fireLog = x.fireLog := rfl

theorem layers_set_display (x : Engine) (l : List RGB) :
    ({ x with display := l } : Engine).layers = x.layers := rfl

theorem firesOf_set_display (x : Engine) (l : List RGB) (i : Nat) :
    firesOf { x with display := l } i = firesOf x i := rfl

theorem fireLog_mono_updateEffects (e : Env) (s : Engine) :
    ∃ tail, (updateEffects e s).2.fireLog = s.fireLog ++ tail := by
  unfold updateEffects checkAutoTrigger
  simp only []
  obtain ⟨tail, htail⟩ := fireLog_mono_checkAutoAux e
    (decide (s.timePrevUpdate > e.now))
    ({ s with timePrevUpdate := e.now } : Engine).layers.length 0
    { s with timePrevUpdate := e.now }
  refine ⟨tail, ?_⟩
  split
  · rw [fireLog_set_display, (updateTracksGo_layers _ _ _ _ _).2]
    exact htail
  · rw [(updateTracksGo_layers _ _ _ _ _).2]
    exact htail

theorem updateEffects_measure (e : Env) (s : Engine) (i : Nat) (c : Int)
    (hc : (s.layers[i]?).map (fun L => L.trigCount) = some c) (h0 : 0 ≤ c) :
    ∃ c2 : Int,
      ((updateEffects e s).2.layers[i]?).map (fun L => L.trigCount) = some c2 ∧
      0 ≤ c2 ∧
      firesOf (updateEffects e s).2 i + c2.toNat ≤ firesOf s i + c.toNat := by
  unfold updateEffects checkAutoTrigger
  simp only []
  obtain ⟨c2, hc2, h02, hm2⟩ := checkAutoAux_measure e
    (decide (s.timePrevUpdate > e.now))
    ({ s with timePrevUpdate := e.now } : Engine).layers.length 0
    { s with timePrevUpdate := e.now } i c hc h0
  refine ⟨c2, ?_, h02, ?_⟩
  · split
    · rw [layers_set_display, (updateTracksGo_layers _ _ _ _ _).1]
      exact hc2
    · rw [(updateTracksGo_layers _ _ _ _ _).1]
      exact hc2
  · have hfup : ∀ sd : Engine × Bool, ∀ fuel j,
        firesOf (updateTracksGo e (decide (s.timePrevUpdate > e.now)) fuel j sd).1 i =
        firesOf sd.1 i := by
      intro sd fuel j
      unfold firesOf
      rw [(updateTracksGo_layers _ _ _ _ _).2]
    split
    · rw [firesOf_set_display, hfup]
      exact hm2
    · rw [hfup]
      exact hm2

theorem firesOf_mono_updateEffects (e : Env) (s : Engine) (i : Nat) :
    firesOf s i ≤ firesOf (updateEffects e s).2 i := by
  obtain ⟨tail, htail⟩ := fireLog_mono_updateEffects e s
  unfold firesOf
  rw [htail, List.filter_append, List.length_append]
  exact Nat.le_add_right ..

theorem runUpdates_concat (envs : List Env) (e : Env) (s : Engine) :
    runUpdates (envs ++ [e]) s = (updateEffects e (runUpdates envs s)).2 := by
  unfold runUpdates
  rw [List.foldl_append]
  rfl

theorem runUpdates_measure :
    ∀ (envs : List Env) (s : Engine) (i : Nat) (c : Int),
      (s.layers[i]?).map (fun L => L.trigCount) = some c → 0 ≤ c →
      ∃ c2 : Int,
        ((runUpdates envs s).layers[i]?).map (fun L => L.trigCount) = some c2 ∧
        0 ≤ c2 ∧
        firesOf (runUpdates envs s) i + c2.toNat ≤ firesOf s i + c.toNat := by
  intro envs
  induction envs with
  | nil => intro s i c hc h0; exact ⟨c, hc, h0, le_rfl⟩
  | cons e rest ih =>
    intro s i c hc h0
    have hstep : runUpdates (e :: rest) s = runUpdates rest (updateEffects e s).2 := rfl
    rw [hstep]
    obtain ⟨c1, hc1, h01, hm1⟩ := updateEffects_measure e s i c hc h0
    obtain ⟨c2, hc2, h02, hm2⟩ := ih (updateEffects e s).2 i c1 hc1 h01
    exact ⟨c2, hc2, h02, by omega⟩

theorem autoTriggerStep_rearm (e : Env) (s1 : Engine) (i : Nat) (L1 : PluginLayer)
    (hrand : randOK e)
    (h1 : s1.layers[i]? = some L1)
    (hact : L1.trigActive = true) (hcnt : L1.trigCount ≠ 0)
    (harm : 0 < L1.trigTimeMsecs) (hdue : L1.trigTimeMsecs ≤ s1.timePrevUpdate)
    (hmin : 1 ≤ L1.trigDelayMin)
    (hbound : s1.timePrevUpdate + 1000 * (L1.trigDelayMin + L1.trigDelayRange)
      < 4294967296) :
    ∃ m2 : Nat,
      ((autoTriggerStep e false s1 i).layers[i]?).map (fun L => L.trigTimeMsecs) =
        some m2 ∧ s1.timePrevUpdate < m2 := by
  have hlt : i < s1.layers.length := by
    by_contra hcl
    rw [List.getElem?_eq_none (Nat.le_of_not_lt hcl)] at h1
    exact Option.noConfusion h1
  unfold autoTriggerStep
  rw [h1]
  simp only []
  simp only [Bool.false_eq_true, false_and, if_false]
  split
  · rename_i hf
    set s1' := ({ s1 with layers := s1.layers.set i L1 } : Engine) with hs1'
    have hg : s1'.layers[i]? = some L1 := by
      rw [hs1']
      show (s1.layers.set i L1)[i]? = some L1
      rw [List.getElem?_set_eq_of_lt _ hlt]
    refine ⟨u32 (s1.timePrevUpdate +
      1000 * e.rand L1.trigDelayMin (L1.trigDelayMin + L1.trigDelayRange + 1)),
      ?_, ?_⟩
    · set force := (if L1.trigForce ≥ 0 then L1.trigForce
        else ((e.rand 0 (MAX_FORCE_VALUE + 1) : Nat) : Int)) with hforce
      unfold autoFireRearm
      simp only []
      have hdel := triggerLayer_trigDelay e s1' i force i
      cases h2 : (triggerLayer e s1' i force).layers[i]? with
      | none =>
        rw [h2, hg] at hdel
        simp at hdel
      | some L2 =>
        rw [h2, hg] at hdel
        simp only [Option.map_some', Option.some.injEq, Prod.mk.injEq] at hdel
        simp only []
        have hlen : i < (triggerLayer e s1' i force).layers.length := by
          rw [(triggerLayer_stable e s1' i force).1, hs1']
          show i < (s1.layers.set i L1).length
          rw [List.length_set]
          exact hlt
        rw [List.getElem?_set_eq_of_lt _ hlen]
        simp only [Option.map_some', Option.some.injEq]
        have htp : (triggerLayer e s1' i force).timePrevUpdate = s1.timePrevUpdate := by
          rw [(triggerLayer_stable e s1' i force).2.2.2, hs1']
        rw [htp, hdel.1, hdel.2]
        split <;> rfl
    · obtain ⟨hr1, hr2⟩ := hrand L1.trigDelayMin
        (L1.trigDelayMin + L1.trigDelayRange + 1) (by omega)
      unfold u32
      have hsmall : s1.timePrevUpdate +
          1000 * e.rand L1.trigDelayMin (L1.trigDelayMin + L1.trigDelayRange + 1)
          < 4294967296 := by omega
      rw [Nat.mod_eq_of_lt hsmall]
      omega
  · rename_i hf
    exact absurd ⟨hact, hcnt, harm, hdue⟩ hf

theorem getNumValueStrict_le (cs : List Char) (m v : Nat)
    (h : getNumValueStrict cs m = some v) : v ≤ m := by
  unfold getNumValueStrict at h
  split at h
  · simp only [] at h
    split at h
    · exact Option.noConfusion h
    · rename_i hgt
      injection h with h
      omega
  · exact Option.noConfusion h

theorem getNumValueClip_cases (cs : List Char) (cur m : Nat) :
    getNumValueClip cs cur m = cur ∨ getNumValueClip cs cur m ≤ m := by
  unfold getNumValueClip
  split
  · simp only []
    split
    · exact Or.inr le_rfl
    · rename_i h
      exact Or.inr (by omega)
  · exact Or.inl rfl

theorem getNumValueClip_digit_le (cs : List Char) (cur m : Nat)
    (h : digitHead cs = true) : getNumValueClip cs cur m ≤ m := by
  unfold getNumValueClip
  rw [if_pos h]
  simp only []
  split
  · exact le_rfl
  · rename_i h2
    omega

theorem mapValue_le (v seg : Nat) (h1 : 1 ≤ seg) (hv : v ≤ MAX_PERCENTAGE) :
    1 ≤ mapValue v 0 MAX_PERCENTAGE 1 seg ∧
    mapValue v 0 MAX_PERCENTAGE 1 seg ≤ seg := by
  unfold mapValue MAX_PERCENTAGE
  simp only [Nat.sub_zero]
  refine ⟨Nat.le_add_left 1 _, ?_⟩
  have h2 : v * (seg - 1) ≤ 100 * (seg - 1) :=
    Nat.mul_le_mul_right _ hv
  have h3 : 100 * (seg - 1) / 100 = seg - 1 :=
    Nat.mul_div_cancel_left _ (by omega)
  have h4 : v * (seg - 1) / 100 ≤ 100 * (seg - 1) / 100 :=
    Nat.div_le_div_right h2
  have h4' : v * (seg - 1) / 100 ≤ seg - 1 := h4.trans (le_of_eq h3)
  calc v * (seg - 1) / 100 + 1 ≤ (seg - 1) + 1 := Nat.add_le_add_right h4' 1
    _ = seg := by omega

theorem mapValue_ge_one (v seg : Nat) : 1 ≤ mapValue v 0 MAX_PERCENTAGE 1 seg :=
  Nat.le_add_left 1 _

theorem mapC_le (v pc seg N : Nat) (hv : v * seg ≤ pc * 100) (hpc : pc ≤ N)
    (hseg : 1 ≤ seg) (hN : 1 ≤ N) :
    mapValue v 0 MAX_PERCENTAGE 1 seg ≤ N := by
  unfold mapValue MAX_PERCENTAGE
  simp only [Nat.sub_zero]
  by_cases hv0 : v = 0
  · subst hv0
    simpa using hN
  · have hs1 : seg - 1 + 1 = seg := by omega
    have hms : v * (seg - 1) + v = v * seg := by
      calc v * (seg - 1) + v = v * (seg - 1 + 1) := (Nat.mul_succ v (seg - 1)).symm
        _ = v * seg := by rw [hs1]
    have h5 : v * (seg - 1) + v ≤ pc * 100 := by
      rw [hms]
      exact hv
    have h2 : v * (seg - 1) < pc * 100 :=
      Nat.lt_of_lt_of_le (Nat.lt_add_of_pos_right (Nat.pos_of_ne_zero hv0)) h5
    have h6 : v * (seg - 1) / 100 < pc :=
      (Nat.div_lt_iff_lt_mul (by omega)).mpr h2
    exact le_trans (Nat.succ_le_of_lt h6) hpc

theorem modifyTrack_numPixels (s : Engine) (i : Nat) (f : PluginTrack → PluginTrack) :
    (modifyTrack s i f).numPixels = s.numPixels := by
  unfold modifyTrack
  split <;> rfl

theorem modifyTopDraw_numPixels (s : Engine) (g : DrawProps → DrawProps) :
    (modifyTopDraw s g).numPixels = s.numPixels :=
  modifyTrack_numPixels s _ _

theorem modifyTopLayer_numPixels (s : Engine) (g : PluginLayer → PluginLayer) :
    (modifyTopLayer s g).numPixels = s.numPixels := by
  unfold modifyTopLayer
  split <;> rfl

theorem triggerLayer_numPixels (env : Env) (s : Engine) (m : Nat) (f : Int) :
    (triggerLayer env s m f).numPixels = s.numPixels := by
  unfold triggerLayer
  simp only []
  repeat' split
  all_goals rfl

theorem engOK_modifyTrack (s : Engine) (i : Nat) (f : PluginTrack → PluginTrack)
    (hs : engOK s)
    (hf : ∀ t ∈ s.tracks,
      dpOK s.numPixels (f t).draw ∧ 1 ≤ (f t).segCount ∧
      (f t).segCount ≤ s.numPixels) :
    engOK (modifyTrack s i f) := by
  unfold modifyTrack
  cases h1 : s.tracks[i]? with
  | none => exact hs
  | some t0 =>
    obtain ⟨e1, e2, e3, e4, e5, e6, e7, e8⟩ := hs
    refine ⟨e1, e2, e3, e4, e5, e6, ?_, e8⟩
    intro t ht
    rcases List.mem_or_eq_of_mem_set ht with hmem | heq
    · exact e7 t hmem
    · subst heq
      exact hf t0 (List.getElem?_mem h1)

theorem engOK_modifyTrack_preserve (s : Engine) (i : Nat)
    (f : PluginTrack → PluginTrack) (hs : engOK s)
    (hf : ∀ t, (f t).draw = t.draw ∧ (f t).segCount = t.segCount) :
    engOK (modifyTrack s i f) := by
  refine engOK_modifyTrack s i f hs ?_
  intro t ht
  obtain ⟨e1, e2⟩ := hf t
  rw [e1, e2]
  exact hs.2.2.2.2.2.2.1 t ht

theorem engOK_modifyTopDraw (s : Engine) (g : DrawProps → DrawProps) (hs : engOK s)
    (hg : ∀ d, dpOK s.numPixels d → dpOK s.numPixels (g d)) :
    engOK (modifyTopDraw s g) := by
  refine engOK_modifyTrack s _ _ hs ?_
  intro t ht
  obtain ⟨ht1, ht2, ht3⟩ := hs.2.2.2.2.2.2.1 t ht
  exact ⟨hg t.draw ht1, ht2, ht3⟩

theorem engOK_modifyTopLayer (s : Engine) (g : PluginLayer → PluginLayer)
    (hs : engOK s) (hg : ∀ L, (g L).plugin = L.plugin) :
    engOK (modifyTopLayer s g) := by
  unfold modifyTopLayer
  cases h1 : s.layers[s.layers.length - 1]? with
  | none => exact hs
  | some L0 =>
    obtain ⟨e1, e2, e3, e4, e5, e6, e7, e8⟩ := hs
    refine ⟨e1, e2, e3, e4, e5, e6, e7, ?_⟩
    intro L hL
    rcases List.mem_or_eq_of_mem_set hL with hmem | heq
    · exact e8 L hmem
    · subst heq
      rw [hg L0]
      exact e8 L0 (List.getElem?_mem h1)

theorem engOK_clearStack (s : Engine) (hs : engOK s) : engOK (clearStack s) := by
  obtain ⟨e1, e2, e3, e4, e5, e6, _, _⟩ := hs
  exact ⟨e1, e1, le_rfl, e4, e5, e6,
    fun t ht => absurd ht (List.not_mem_nil t),
    fun L hL => absurd hL (List.not_mem_nil L)⟩

theorem engOK_push_layer (s : Engine) (L : PluginLayer) (hs : engOK s)
    (hL : specOK s.numPixels L.plugin.spec) :
    engOK { s with layers := s.layers ++ [L] } := by
  obtain ⟨e1, e2, e3, e4, e5, e6, e7, e8⟩ := hs
  refine ⟨e1, e2, e3, e4, e5, e6, e7, ?_⟩
  intro L' hL'
  rcases List.mem_append.mp hL' with hm | hm
  · exact e8 L' hm
  · rw [List.mem_singleton.mp hm]
    exact hL

theorem engOK_push_track (s : Engine) (t : PluginTrack) (hs : engOK s)
    (ht : dpOK s.numPixels t.draw ∧ 1 ≤ t.segCount ∧ t.segCount ≤ s.numPixels) :
    engOK { s with tracks := s.tracks ++ [t] } := by
  obtain ⟨e1, e2, e3, e4, e5, e6, e7, e8⟩ := hs
  refine ⟨e1, e2, e3, e4, e5, e6, ?_, e8⟩
  intro t' ht'
  rcases List.mem_append.mp ht' with hm | hm
  · exact e7 t' hm
  · rw [List.mem_singleton.mp hm]
    exact ht

theorem engOK_dropLasts (s : Engine) (d : List Nat) (hs : engOK s) :
    engOK { s with
      tracks := s.tracks.dropLast
      layers := s.layers.dropLast
      destroyed := d } := by
  obtain ⟨e1, e2, e3, e4, e5, e6, e7, e8⟩ := hs
  refine ⟨e1, e2, e3, e4, e5, e6, ?_, ?_⟩
  · intro t ht
    exact e7 t ((List.dropLast_prefix s.tracks).subset ht)
  · intro L hL
    exact e8 L ((List.dropLast_prefix s.layers).subset hL)

theorem dpOK_restorePropVals (N : Nat) (X : PluginTrack) (c h w : Nat)
    (hd : dpOK N X.draw) (hX1 : 1 ≤ X.segCount) (hX2 : X.segCount ≤ N)
    (hc1 : 1 ≤ c) (hc2 : c ≤ N) (hh : h ≤ MAX_DEGREES_HUE)
    (hw : w ≤ MAX_PERCENTAGE) :
    dpOK N (restorePropVals X c h w).draw ∧
    1 ≤ (restorePropVals X c h w).segCount ∧
    (restorePropVals X c h w).segCount ≤ N := by
  obtain ⟨d1, d2, d3, d4, d5⟩ := hd
  unfold restorePropVals
  split
  · exact ⟨⟨d1, d2, d3, d4, d5⟩, hX1, hX2⟩
  · simp only []
    repeat' split
    all_goals
      exact ⟨⟨by assumption, by assumption, by assumption, by assumption,
        by assumption⟩, hX1, hX2⟩

theorem engOK_triggerLayer (env : Env) (s : Engine) (m : Nat) (f : Int)
    (hs : engOK s) : engOK (triggerLayer env s m f) := by
  cases h1 : s.layers[m]? with
  | none => simpa [triggerLayer, h1] using hs
  | some pL =>
    cases h2 : s.tracks[pL.track]? with
    | none => simpa [triggerLayer, h1, h2] using hs
    | some pT =>
      simp only [triggerLayer, h1, h2]
      obtain ⟨e1, e2, e3, e4, e5, e6, e7, e8⟩ := hs
      have hspec := e8 pL (List.getElem?_mem h1)
      have htr := e7 pT (List.getElem?_mem h2)
      have hnd : dpOK s.numPixels (pL.plugin.spec.onTrigger pT.draw f) :=
        hspec.1 pT.draw f htr.1
      refine ⟨e1, e2, e3, e4, e5, e6, ?_, ?_⟩
      · intro t ht
        rcases List.mem_or_eq_of_mem_set ht with hmem | heq
        · exact e7 t hmem
        · subst heq
          repeat' split
          all_goals simp only []
          all_goals
            first
              | exact ⟨hnd, htr.2.1, htr.2.2⟩
              | (apply dpOK_restorePropVals <;>
                  first
                    | exact hnd
                    | exact htr.2.1
                    | exact htr.2.2
                    | exact htr.1.1
                    | exact htr.1.2.1
                    | exact htr.1.2.2.1
                    | exact htr.1.2.2.2.1
                    | exact htr.1.2.2.2.2)
      · intro L hL
        rcases List.mem_or_eq_of_mem_set hL with hmem | heq
        · exact e8 L hmem
        · subst heq
          exact e8 pL (List.getElem?_mem h1)

theorem engOK_newPluginLayer (env : Env) (s : Engine) (pid segindex : Nat)
    (henv : envOK s.numPixels env) (hs : engOK s) :
    engOK (newPluginLayer env s pid segindex).2 ∧
    (newPluginLayer env s pid segindex).2.numPixels = s.numPixels := by
  obtain ⟨e1, e2, e3, e4, e5, e6, e7, e8⟩ := hs
  unfold newPluginLayer
  split
  · exact ⟨⟨e1, e2, e3, e4, e5, e6, e7, e8⟩, rfl⟩
  · cases hf : env.factory pid with
    | none => exact ⟨⟨e1, e2, e3, e4, e5, e6, e7, e8⟩, rfl⟩
    | some spec =>
      simp only []
      have hspec := henv pid spec hf
      split
      · exact ⟨⟨e1, e2, e3, e4, e5, e6, e7, e8⟩, rfl⟩
      · split
        · split
          · constructor
            · apply engOK_modifyTrack_preserve
              · apply engOK_push_layer
                · apply engOK_push_track
                  · exact ⟨e1, e2, e3, e4, e5, e6, e7, e8⟩
                  · exact ⟨⟨le_rfl, e1, Nat.zero_le _, le_rfl, Nat.zero_le _⟩,
                      e2, e3⟩
                · exact hspec
              · intro t
                exact ⟨rfl, rfl⟩
            · rw [modifyTrack_numPixels]
          · constructor
            · refine ⟨e1, e2, e3, e4, e5, e6, ?_, ?_⟩
              · intro t ht
                simp only [List.dropLast_concat] at ht
                exact e7 t ht
              · intro L hL
                simp only [List.dropLast_concat] at hL
                exact e8 L hL
            · rfl
        · constructor
          · apply engOK_push_layer
            · exact ⟨e1, e2, e3, e4, e5, e6, e7, e8⟩
            · exact hspec
          · rfl

theorem execToken_engOK (env : Env) (s : Engine) (tok : List Char) (seg : Int)
    (henv : envOK s.numPixels env) (hs : engOK s) :
    engOK (execToken env s tok seg).2.1 ∧
    (execToken env s tok seg).2.1.numPixels = s.numPixels := by
  obtain ⟨e1, e2, e3, e4, e5, e6, e7, e8⟩ := hs
  have hsR : engOK s := ⟨e1, e2, e3, e4, e5, e6, e7, e8⟩
  cases tok with
  | nil => exact ⟨hsR, rfl⟩
  | cons c args =>
    unfold execToken
    split
    · exact ⟨hsR, rfl⟩
    · rename_i x cc cs heq
      injection heq with hc1 hc2
      subst hc1
      subst hc2
      by_cases hX : c = 'X'
      · rw [if_pos hX]
        exact ⟨hsR, rfl⟩
      rw [if_neg hX]
      by_cases hY : c = 'Y'
      · rw [if_pos hY]
        cases hYv : getNumValueStrict args (s.numPixels - s.segOffset) with
        | some n =>
          simp only []
          by_cases hn : n > 0
          · rw [if_pos hn]
            refine ⟨⟨e1, ?_, ?_, e4, e5, e6, e7, e8⟩, rfl⟩
            · show 1 ≤ n
              omega
            · show n ≤ s.numPixels
              have := getNumValueStrict_le _ _ _ hYv
              omega
          · rw [if_neg hn]
            exact ⟨⟨e1, e1, le_rfl, e4, e5, e6, e7, e8⟩, rfl⟩
        | none => exact ⟨⟨e1, e1, le_rfl, e4, e5, e6, e7, e8⟩, rfl⟩
      rw [if_neg hY]
      by_cases hE : c = 'E'
      · rw [if_pos hE]
        cases hEv : getNumValueStrict args MAX_PLUGIN_VALUE with
        | some pid =>
          simp only []
          exact engOK_newPluginLayer env s pid _ henv hsR
        | none => exact ⟨hsR, rfl⟩
      rw [if_neg hE]
      by_cases hP : c = 'P'
      · rw [if_pos hP]
        exact ⟨engOK_clearStack s hsR, rfl⟩
      rw [if_neg hP]
      by_cases hTr : s.tracks.length = 0
      · rw [if_pos hTr]
        exact ⟨hsR, rfl⟩
      rw [if_neg hTr]
      by_cases hJ : c = 'J'
      · rw [if_pos hJ]
        exact ⟨engOK_modifyTopDraw s _ hsR (fun d hd => hd),
            modifyTopDraw_numPixels s _⟩
      rw [if_neg hJ]
      by_cases hK : c = 'K'
      · rw [if_pos hK]
        exact ⟨engOK_modifyTopDraw s _ hsR (fun d hd => hd),
            modifyTopDraw_numPixels s _⟩
      rw [if_neg hK]
      by_cases hU : c = 'U'
      · rw [if_pos hU]
        exact ⟨engOK_modifyTopDraw s _ hsR (fun d hd => hd),
            modifyTopDraw_numPixels s _⟩
      rw [if_neg hU]
      by_cases hV : c = 'V'
      · rw [if_pos hV]
        exact ⟨engOK_modifyTopDraw s _ hsR (fun d hd => hd),
            modifyTopDraw_numPixels s _⟩
      rw [if_neg hV]
      by_cases hH : c = 'H'
      · rw [if_pos hH]
        refine ⟨engOK_modifyTopDraw s _ hsR ?_, modifyTopDraw_numPixels s _⟩
        intro d hd
        refine ⟨hd.1, hd.2.1, hd.2.2.1, hd.2.2.2.1, ?_⟩
        show getNumValueClip args d.degreeHue MAX_DEGREES_HUE ≤ MAX_DEGREES_HUE
        rcases getNumValueClip_cases args d.degreeHue MAX_DEGREES_HUE with hc | hc
        · rw [hc]
          exact hd.2.2.2.2
        · exact hc
      rw [if_neg hH]
      by_cases hW : c = 'W'
      · rw [if_pos hW]
        refine ⟨engOK_modifyTopDraw s _ hsR ?_, modifyTopDraw_numPixels s _⟩
        intro d hd
        refine ⟨hd.1, hd.2.1, ?_, hd.2.2.2.1, hd.2.2.2.2⟩
        show getNumValueClip args d.pcentWhite MAX_PERCENTAGE ≤ MAX_PERCENTAGE
        rcases getNumValueClip_cases args d.pcentWhite MAX_PERCENTAGE with hc | hc
        · rw [hc]
          exact hd.2.2.1
        · exact hc
      rw [if_neg hW]
      by_cases hB : c = 'B'
      · rw [if_pos hB]
        refine ⟨engOK_modifyTopDraw s _ hsR ?_, modifyTopDraw_numPixels s _⟩
        intro d hd
        refine ⟨hd.1, hd.2.1, hd.2.2.1, ?_, hd.2.2.2.2⟩
        show getNumValueClip args d.pcentBright MAX_PERCENTAGE ≤ MAX_PERCENTAGE
        rcases getNumValueClip_cases args d.pcentBright MAX_PERCENTAGE with hc | hc
        · rw [hc]
          exact hd.2.2.2.1
        · exact hc
      rw [if_neg hB]
      by_cases hC : c = 'C'
      · rw [if_pos hC]
        refine ⟨engOK_modifyTopDraw s _ hsR ?_, modifyTopDraw_numPixels s _⟩
        intro d hd
        refine ⟨?_, ?_, hd.2.2.1, hd.2.2.2.1, hd.2.2.2.2⟩
        · exact mapValue_ge_one _ _
        · show mapValue (getNumValueClip args
              (d.pixCount * MAX_PERCENTAGE / s.segCount) MAX_PERCENTAGE)
              0 MAX_PERCENTAGE 1 s.segCount ≤ s.numPixels
          rcases getNumValueClip_cases args
            (d.pixCount * MAX_PERCENTAGE / s.segCount) MAX_PERCENTAGE with hc | hc
          · rw [hc]
            exact mapC_le _ _ _ _ (Nat.div_mul_le_self _ _) hd.2.1 e2 e1
          · exact le_trans (mapValue_le _ _ e2 hc).2 e3
      rw [if_neg hC]
      by_cases hD : c = 'D'
      · rw [if_pos hD]
        exact ⟨engOK_modifyTopDraw s _ hsR (fun d hd => hd),
            modifyTopDraw_numPixels s _⟩
      rw [if_neg hD]
      by_cases hQ : c = 'Q'
      · rw [if_pos hQ]
        cases hQv : getNumValueStrict args 7 with
        | none => exact ⟨hsR, rfl⟩
        | some bits =>
          simp only []
          refine ⟨engOK_modifyTrack s _ _ hsR ?_, modifyTrack_numPixels s _ _⟩
          intro t ht
          have htr := e7 t ht
          split
          · repeat' split
            all_goals
              refine ⟨⟨?_, ?_, ?_, ?_, ?_⟩, htr.2.1, htr.2.2⟩ <;>
              first
                | exact htr.1.1
                | exact htr.1.2.1
                | exact htr.1.2.2.1
                | exact htr.1.2.2.2.1
                | exact htr.1.2.2.2.2
                | exact e4
                | exact e5
                | exact (mapValue_le s.externPcentCount t.segCount htr.2.1 e6).1
                | exact le_trans
                    (mapValue_le s.externPcentCount t.segCount htr.2.1 e6).2 htr.2.2
          · exact ⟨htr.1, htr.2.1, htr.2.2⟩
      rw [if_neg hQ]
      by_cases hI : c = 'I'
      · rw [if_pos hI]
        exact ⟨engOK_modifyTopLayer s _ hsR (fun L => by split <;> rfl),
            modifyTopLayer_numPixels s _⟩
      rw [if_neg hI]
      by_cases hA : c = 'A'
      · rw [if_pos hA]
        exact ⟨engOK_modifyTopLayer s _ hsR (fun L => rfl),
            modifyTopLayer_numPixels s _⟩
      rw [if_neg hA]
      by_cases hF : c = 'F'
      · rw [if_pos hF]
        exact ⟨engOK_modifyTopLayer s _ hsR (fun L => by split <;> rfl),
            modifyTopLayer_numPixels s _⟩
      rw [if_neg hF]
      by_cases hN : c = 'N'
      · rw [if_pos hN]
        exact ⟨engOK_modifyTopLayer s _ hsR (fun L => rfl),
            modifyTopLayer_numPixels s _⟩
      rw [if_neg hN]
      by_cases hO : c = 'O'
      · rw [if_pos hO]
        exact ⟨engOK_modifyTopLayer s _ hsR (fun L => rfl),
            modifyTopLayer_numPixels s _⟩
      rw [if_neg hO]
      by_cases hT : c = 'T'
      · rw [if_pos hT]
        cases hTv : s.layers[s.layers.length - 1]? with
        | none => exact ⟨hsR, rfl⟩
        | some L0 =>
          simp only []
          constructor
          · apply engOK_triggerLayer
            split
            · exact engOK_modifyTopLayer s _ hsR (fun L => rfl)
            · exact hsR
          · rw [triggerLayer_numPixels]
            split
            · exact modifyTopLayer_numPixels s _
            · rfl
      rw [if_neg hT]
      by_cases hG : c = 'G'
      · rw [if_pos hG]
        exact ⟨by split <;> exact hsR, by split <;> rfl⟩
      rw [if_neg hG]
      exact ⟨hsR, rfl⟩

theorem execTokens_engOK (env : Env) :
    ∀ (toks : List (List Char)) (s : Engine) (seg : Int),
      envOK s.numPixels env → engOK s →
      engOK (execTokens env toks s seg).2 ∧
      (execTokens env toks s seg).2.numPixels = s.numPixels := by
  intro toks
  induction toks with
  | nil => intro s seg _ hs; exact ⟨hs, rfl⟩
  | cons t rest ih =>
    intro s seg henv hs
    unfold execTokens
    simp only []
    obtain ⟨hok, hnp⟩ := execToken_engOK env s t seg henv hs
    split
    · have henv2 : envOK (execToken env s t seg).2.1.numPixels env := by
        rw [hnp]
        exact henv
      obtain ⟨h2, hnp2⟩ :=
        ih (execToken env s t seg).2.1 (execToken env s t seg).2.2 henv2 hok
      exact ⟨h2, hnp2.trans hnp⟩
    · exact ⟨hok, hnp⟩

theorem specOK_trivial (N t : Nat) : specOK N (trivialSpec t) :=
  ⟨fun _ _ hd => hd, fun _ hd => hd⟩

theorem envOK_testEnv (N : Nat) : envOK N testEnv := by
  intro pid spec h
  unfold testEnv testFactory at h
  simp only [] at h
  split at h
  · injection h with h
    rw [← h]
    exact specOK_trivial N _
  · split at h
    · injection h with h
      rw [← h]
      exact specOK_trivial N _
    · exact Option.noConfusion h

theorem engOK_engEnabled : engOK engEnabled := by
  refine ⟨by decide, by decide, by decide, by decide, by decide, by decide,
    ?_, ?_⟩
  · intro t ht
    rw [show engEnabled.tracks = [baseTrack] from rfl] at ht
    rw [List.mem_singleton.mp ht]
    exact ⟨by unfold dpOK; decide, by decide, by decide⟩
  · intro L hL
    rw [show engEnabled.layers = [engArmedLayer] from rfl] at hL
    rw [List.mem_singleton.mp hL]
    exact specOK_trivial _ _

theorem execToken_C (env : Env) (s : Engine) (args : List Char) (seg : Int)
    (h0 : s.tracks.length ≠ 0) :
    execToken env s ('C' :: args) seg =
      (.success, modifyTopDraw s (fun d =>
        let curvalue := d.pixCount * MAX_PERCENTAGE / s.segCount
        let percent := getNumValueClip args curvalue MAX_PERCENTAGE
        { d with pixCount := mapValue percent 0 MAX_PERCENTAGE 1 s.segCount }),
       seg) := by
  unfold execToken
  split
  · rename_i heq
    exact List.noConfusion heq
  · rename_i x cc cs heq
    injection heq with hc1 hc2
    subst hc1
    subst hc2
    rw [if_neg (show ¬('C' = 'X') by decide)]
    rw [if_neg (show ¬('C' = 'Y') by decide)]
    rw [if_neg (show ¬('C' = 'E') by decide)]
    rw [if_neg (show ¬('C' = 'P') by decide)]
    rw [if_neg h0]
    rw [if_neg (show ¬('C' = 'J') by decide)]
    rw [if_neg (show ¬('C' = 'K') by decide)]
    rw [if_neg (show ¬('C' = 'U') by decide)]
    rw [if_neg (show ¬('C' = 'V') by decide)]
    rw [if_neg (show ¬('C' = 'H') by decide)]
    rw [if_neg (show ¬('C' = 'W') by decide)]
    rw [if_neg (show ¬('C' = 'B') by decide)]
    rw [if_pos (show 'C' = 'C' from rfl)]

/-! # Theorems for the claims -/

/-- C1.  The claim says `clear_stack` destroys every layer's plugin with
destructors running in reverse order of creation (and resets the tops,
display and staging).  Evaluating `clearStack` on a four-layer, two-track
stack (creation serials 0,1,2,3; tracks starting at layers 0 and 2): the
state resets all hold, but the destructor log is [2, 0, 1] — not the
reverse creation order [3, 2, 1, 0] — and the top layer's plugin (serial
3) is never destroyed, because the inner deletion loop runs `j` only
strictly below the current `indexLayerStack`.  The same holds through the
`P` command. -/
theorem claim1_clear_stack_evaluation :
    engClear.layers.map (fun L => L.plugin.serial) = [0, 1, 2, 3] ∧
    engClear.tracks.map (fun t => t.layer) = [0, 2] ∧
    (clearStack engClear).destroyed = [2, 0, 1] ∧
    3 ∉ (clearStack engClear).destroyed ∧
    (clearStack engClear).layers = [] ∧
    (clearStack engClear).tracks = [] ∧
    (clearStack engClear).indexTrackEnable = -1 ∧
    (clearStack engClear).segOffset = 0 ∧
    (clearStack engClear).segCount = 10 ∧
    (clearStack engClear).display = List.replicate 10 RGB.black ∧
    (execCmdStr testEnv engClear "P").2.destroyed = [2, 0, 1] ∧
    (execCmdStr testEnv engClear "P").2.timePrevUpdate = 0 :=
  ⟨by decide, by decide, by decide, by decide, rfl, rfl, by decide, by decide,
   by decide, by decide, by decide, by decide⟩

/-- C7 counterexample.  The claim says `exec_cmd_str("J")` (missing
argument) leaves `pix_start` unchanged.  On a track whose `pix_start` is 4
(after "J50" on a 10-pixel strip), executing "J" succeeds but resets
`pix_start` to 0, because the J handler passes 0 — not the current value —
as the keep-current default of the clipped parser. -/
theorem claim7_counterexample :
    engJ.tracks.map (fun t => t.draw.pixStart) = [4] ∧
    (execCmdStr testEnv engJ "J").1 = Status.success ∧
    (execCmdStr testEnv engJ "J").2.tracks.map (fun t => t.draw.pixStart) = [0] :=
  ⟨by decide, by decide, by decide⟩

/-- C7 amended.  For the draw-window commands J and K the clipped-argument
default is the constant 0 rather than the property's current value: with a
track present, "J" (no digits) sets `pix_start` to 0 and "K" sets
`pix_len` to 1 ((0*(numPixels-1))/100 + 1), both returning Success and
changing nothing else; the keep-current behaviour of the claim applies to
the other clipped commands (H, W, B, C, D), not to J and K. -/
theorem claim7_j_k_reset (env : Env) (s : Engine) (h : s.tracks.length ≠ 0) :
    execCmdStr env s "J" =
      (Status.success, modifyTopDraw s (fun d => { d with pixStart := 0 })) ∧
    execCmdStr env s "K" =
      (Status.success, modifyTopDraw s (fun d => { d with pixLen := 1 })) := by
  constructor
  · show execTokens env (tokenize "J") s (-1) = _
    have ht : tokenize "J" = [['J']] := rfl
    rw [ht]
    simp [execTokens, execToken, h, getNumValueClip, digitHead]
  · show execTokens env (tokenize "K") s (-1) = _
    have ht : tokenize "K" = [['K']] := rfl
    rw [ht]
    simp [execTokens, execToken, h, getNumValueClip, digitHead]

/-- C7 witness: the amended theorem applied to the concrete engine of the
counterexample. -/
theorem claim7_j_k_reset_witness :
    engJ.tracks.length ≠ 0 ∧
    (execCmdStr testEnv engJ "J" =
      (Status.success, modifyTopDraw engJ (fun d => { d with pixStart := 0 })) ∧
     execCmdStr testEnv engJ "K" =
      (Status.success, modifyTopDraw engJ (fun d => { d with pixLen := 1 }))) :=
  ⟨by decide, claim7_j_k_reset testEnv engJ (by decide)⟩

/-- C9.  Executing the Q command on an existing track with a missing,
non-numeric or out-of-range (> 7) argument returns Success and leaves the
whole engine unchanged (in particular `ctrl_bits` and every draw property
of every track), and no BadVal error is reported even though Q parses its
argument with the strict helper: the handler simply skips the body when
the strict parse yields the -1 sentinel. -/
theorem claim9_q_bad_arg (env : Env) (s : Engine) (args : List Char)
    (h : s.tracks.length ≠ 0) (ha : getNumValueStrict args 7 = none) :
    execTokens env [('Q' :: args)] s (-1) = (Status.success, s) := by
  simp [execTokens, execToken, h, ha]

/-- C9 witness: "Q9" (9 is out of range for the control-bit mask) on the
one-track engine returns Success with the engine unchanged. -/
theorem claim9_q_bad_arg_witness :
    (engTrack.tracks.length ≠ 0 ∧ getNumValueStrict ['9'] 7 = none) ∧
    execTokens testEnv [['Q', '9']] engTrack (-1) = (Status.success, engTrack) :=
  ⟨⟨by decide, by decide⟩, claim9_q_bad_arg testEnv engTrack ['9'] (by decide) (by decide)⟩

/-- C2.  `add_layer` (NewPluginLayer, invoked by the E command) is atomic
on failure: whenever it returns a non-success status, the observable
engine state (stacks, tops, draw properties, staging, display — everything
but the ghost destruction log and serial counter) is exactly as before the
call; a full layer stack yields MemoryError before any plugin is created;
a missing factory plugin yields BadVal with nothing created; and in the
three rejections after the factory call — predraw with no track (BadCmd),
redraw with a full track stack (MemoryError), redraw-buffer allocation
failure (MemoryError) — the plugin obtained from the factory is destroyed
(its serial is appended to the destruction log). -/
theorem claim2_add_layer_atomic (env : Env) (s : Engine) (pid si : Nat) :
    ((newPluginLayer env s pid si).1 ≠ Status.success →
      (newPluginLayer env s pid si).2.obs = s.obs) ∧
    (s.layers.length ≥ s.maxPluginLayers →
      newPluginLayer env s pid si = (Status.memory, s)) ∧
    (s.layers.length < s.maxPluginLayers → env.factory pid = none →
      newPluginLayer env s pid si = (Status.badVal, s)) ∧
    (∀ spec, s.layers.length < s.maxPluginLayers → env.factory pid = some spec →
      ((spec.ptype &&& PLUGIN_TYPE_REDRAW = 0 → s.tracks.length = 0 →
         (newPluginLayer env s pid si).1 = Status.badCmd ∧
         (newPluginLayer env s pid si).2.destroyed = s.destroyed ++ [s.nextSerial]) ∧
       (spec.ptype &&& PLUGIN_TYPE_REDRAW ≠ 0 → s.tracks.length ≥ s.maxPluginTracks →
         (newPluginLayer env s pid si).1 = Status.memory ∧
         (newPluginLayer env s pid si).2.destroyed = s.destroyed ++ [s.nextSerial]) ∧
       (spec.ptype &&& PLUGIN_TYPE_REDRAW ≠ 0 → s.tracks.length < s.maxPluginTracks →
         env.allocOK = false →
         (newPluginLayer env s pid si).1 = Status.memory ∧
         (newPluginLayer env s pid si).2.destroyed = s.destroyed ++ [s.nextSerial]))) := by
  refine ⟨?_, ?_, ?_, ?_⟩
  · intro hne
    by_cases h : s.layers.length ≥ s.maxPluginLayers
    · rw [newPluginLayer_layers_full env s pid si h]
    · cases hfac : env.factory pid with
      | none => rw [newPluginLayer_factory_none env s pid si h hfac]
      | some spec =>
        by_cases hp : spec.ptype &&& PLUGIN_TYPE_REDRAW = 0
        · by_cases ht : s.tracks.length = 0
          · rw [newPluginLayer_predraw_no_track env s pid si spec h hfac hp ht]
            rfl
          · rw [newPluginLayer_predraw_ok env s pid si spec h hfac hp ht] at hne
            exact absurd rfl hne
        · by_cases ht : s.tracks.length ≥ s.maxPluginTracks
          · rw [newPluginLayer_track_full env s pid si spec h hfac hp ht]
            rfl
          · cases hao : env.allocOK with
            | true =>
              rw [newPluginLayer_redraw_ok env s pid si spec h hfac hp ht hao] at hne
              exact absurd rfl hne
            | false =>
              rw [newPluginLayer_alloc_fail env s pid si spec h hfac hp ht hao]
              rfl
  · intro h
    exact newPluginLayer_layers_full env s pid si h
  · intro h hf
    exact newPluginLayer_factory_none env s pid si (Nat.not_le.mpr h) hf
  · intro spec h hf
    refine ⟨?_, ?_, ?_⟩
    · intro hp ht
      rw [newPluginLayer_predraw_no_track env s pid si spec (Nat.not_le.mpr h) hf hp ht]
      exact ⟨rfl, rfl⟩
    · intro hp ht
      rw [newPluginLayer_track_full env s pid si spec (Nat.not_le.mpr h) hf hp ht]
      exact ⟨rfl, rfl⟩
    · intro hp ht ha
      rw [newPluginLayer_alloc_fail env s pid si spec (Nat.not_le.mpr h) hf hp
        (Nat.not_le.mpr ht) ha]
      exact ⟨rfl, rfl⟩

/-- C2 witness: a redraw plugin whose buffer allocation fails on the empty
10-pixel engine — MemoryError, observable state untouched, the created
plugin (serial 0) destroyed. -/
theorem claim2_add_layer_atomic_witness :
    (newPluginLayer failEnv eng10 0 0).1 = Status.memory ∧
    (newPluginLayer failEnv eng10 0 0).2.obs = eng10.obs ∧
    (newPluginLayer failEnv eng10 0 0).2.destroyed = [0] := by
  obtain ⟨h1, _, _, h4⟩ := claim2_add_layer_atomic failEnv eng10 0 0
  have hx := (h4 (trivialSpec PLUGIN_TYPE_REDRAW) (by decide) rfl).2.2
    (by decide) (by decide) rfl
  refine ⟨hx.1, h1 (by rw [hx.1]; decide), by simpa using hx.2⟩

/-- C5 counterexample.  The claim says the rollover rebase of
`check_auto_trigger` reaches every armed layer, including layers on tracks
beyond the enabled frontier.  On an engine whose only layer is armed
(trigTimeMsecs = 5) but sits on a not-yet-enabled track (indexTrackEnable
= -1, no G command), a rollover pass — both directly and through
`updateEffects` with the clock wrapped from 100 back to 50 — leaves
trigTimeMsecs at 5: the loop breaks at the first layer beyond the frontier
before the rebase runs. -/
theorem claim5_counterexample :
    engNotEnabled.layers.map (fun L => (L.trigTimeMsecs, L.track)) = [(5, 0)] ∧
    engNotEnabled.indexTrackEnable = -1 ∧
    engNotEnabled.timePrevUpdate = 100 ∧
    (checkAutoTrigger testEnv true engNotEnabled).layers.map
      (fun L => L.trigTimeMsecs) = [5] ∧
    ((updateEffects { testEnv with now := 50 } engNotEnabled).2.layers.map
      (fun L => L.trigTimeMsecs) = [5]) :=
  ⟨by decide, by decide, by decide, by decide, by decide⟩

/-- C5 amended.  On rollover, `check_auto_trigger` rebases the
`trig_time_ms` of armed layers only up to the enabled frontier: the layer
loop breaks at the first layer whose track is beyond `track_enable_top`
(the break runs before the rebase), so every layer at or past that point
keeps its old `trig_time_ms` entirely, while an armed layer before the
frontier that does not fire in the same pass has its `trig_time_ms`
rebased to `prev_update_time`. -/
theorem claim5_rollover_rebase_frontier (env : Env) (s : Engine) :
    (∀ (i j : Nat) (Lj : PluginLayer), j ≤ i → s.layers[j]? = some Lj →
       (Lj.track : Int) > s.indexTrackEnable →
       (checkAutoTrigger env true s).layers[i]? = s.layers[i]?) ∧
    (∀ (i : Nat) (L : PluginLayer), s.layers[i]? = some L → L.trigTimeMsecs > 0 →
       (∀ (j : Nat) (Lj : PluginLayer), j ≤ i → s.layers[j]? = some Lj →
          (Lj.track : Int) ≤ s.indexTrackEnable) →
       ¬(L.trigActive ∧ L.trigCount ≠ 0) →
       (checkAutoTrigger env true s).layers[i]? =
         some { L with trigTimeMsecs := s.timePrevUpdate }) := by
  constructor
  · intro i j Lj hji h hgt
    exact checkAutoAux_break_untouched env true s.layers.length 0 s i j Lj
      (Nat.zero_le j) hji h hgt
  · intro i L h harm hfr hnf
    have hlt : i < s.layers.length := by
      by_contra hc
      rw [List.getElem?_eq_none (Nat.le_of_not_lt hc)] at h
      exact Option.noConfusion h
    exact checkAutoAux_rebase env s.layers.length 0 s i L (Nat.zero_le i)
      (by omega) h harm (fun j Lj _ hj2 hj3 => hfr j Lj hj2 hj3) hnf

/-- C5 witness: the rebase conjunct applied to the concrete armed layer on
an enabled track, with the clock previously at 100. -/
theorem claim5_rollover_rebase_frontier_witness :
    (engEnabled.layers[0]? = some engArmedLayer ∧
     engArmedLayer.trigTimeMsecs > 0 ∧
     ¬(engArmedLayer.trigActive ∧ engArmedLayer.trigCount ≠ 0)) ∧
    (checkAutoTrigger testEnv true engEnabled).layers[0]? =
      some { engArmedLayer with trigTimeMsecs := engEnabled.timePrevUpdate } := by
  refine ⟨⟨rfl, by decide, by decide⟩, ?_⟩
  apply (claim5_rollover_rebase_frontier testEnv engEnabled).2 0 engArmedLayer rfl
    (by decide) ?_ (by decide)
  intro j Lj hj h
  have hj0 : j = 0 := Nat.le_zero.mp hj
  subst hj0
  rw [show engEnabled.layers[0]? = some engArmedLayer from rfl] at h
  injection h with hE
  rw [← hE]
  decide

theorem getD_replicate_black (n p : Nat) :
    (List.replicate n RGB.black).getD p RGB.black = RGB.black := by
  simp only [List.getD, List.get?_eq_getElem?, List.getElem?_replicate]
  split <;> rfl

/-- C3.  The compositor first zeroes the display buffer; then, when every
merged (enabled, redraw-typed) track blends with `or_pixel_values = true`,
each display pixel ends as the bitwise OR of the redraw-buffer bytes the
tracks contribute to it along their window walks (`trackOr` folds OR over
exactly the buffer entries whose visit lands on that pixel); and under
overwrite blending (`or_pixel_values = false`) a merge step whose source
pixel is black (all three bytes zero) leaves the display pixel
unchanged. -/
theorem claim3_compositor_or_blend (s : Engine)
    (horv : ∀ t ∈ consideredFrom s s.tracks.length 0,
      t.draw.orPixelValues = true) :
    (∀ p : Nat, p < s.numPixels →
      (compositeDisplay s).getD p RGB.black =
        orFold ((consideredFrom s s.tracks.length 0).map
          (fun t => trackOr s.numPixels t p))) ∧
    (∀ (buff disp : List RGB) (pix y : Nat), buff.getD y RGB.black = RGB.black →
      mergeStep false buff disp (pix, y) = disp) := by
  constructor
  · intro p hp
    unfold compositeDisplay
    rw [mergeTracksGo_or s s.tracks.length 0 (List.replicate s.numPixels RGB.black)
        p (by simpa using hp) horv,
      getD_replicate_black, orRGB_black_left]
  · intro buff disp pix y hb
    unfold mergeStep
    simp only [List.getD, List.get?_eq_getElem?] at hb
    simp [List.getD, hb]

/-- C3 witness: the OR characterization applied to a concrete 4-pixel
engine with two enabled OR-blending tracks. -/
theorem claim3_compositor_or_blend_witness :
    (∀ t ∈ consideredFrom engComp engComp.tracks.length 0,
      t.draw.orPixelValues = true) ∧
    ((∀ p : Nat, p < engComp.numPixels →
      (compositeDisplay engComp).getD p RGB.black =
        orFold ((consideredFrom engComp engComp.tracks.length 0).map
          (fun t => trackOr engComp.numPixels t p))) ∧
     (∀ (buff disp : List RGB) (pix y : Nat), buff.getD y RGB.black = RGB.black →
      mergeStep false buff disp (pix, y) = disp)) :=
  ⟨by decide, claim3_compositor_or_blend engComp (by decide)⟩

/-- C10.  The two-argument `trigger_force(layer, force)` with layer = 255
fires exactly the layers whose `trig_source` equals 255 — the
MAX_BYTE_VALUE sentinel that both marks inter-layer triggering as disabled
(the "A255" assignment clips into [0, 255]) and is installed as the
default `trig_source` of every layer `add_layer` creates — so layers whose
trigger source was never assigned (or was disabled) are all triggered by
that one call, while layers with any other source are untouched. -/
theorem claim10_trigger_disabled_sentinel (env : Env) (s : Engine) (force : Int)
    (hwf : layersWF s) :
    (∀ (i : Nat) (L : PluginLayer), s.layers[i]? = some L → L.trigSource = 255 →
      (triggerForceFrom env s 255 force).layers[i]? =
        some { L with trigActive := true }) ∧
    (∀ (i : Nat) (L : PluginLayer), s.layers[i]? = some L → L.trigSource ≠ 255 →
      (triggerForceFrom env s 255 force).layers[i]? = some L) ∧
    MAX_BYTE_VALUE = 255 ∧
    (∀ (env2 : Env) (s2 : Engine) (pid si : Nat) (spec : PluginSpec),
      env2.factory pid = some spec →
      (newPluginLayer env2 s2 pid si).1 = Status.success →
      ((newPluginLayer env2 s2 pid si).2.layers[s2.layers.length]?).map
        (fun L => L.trigSource) = some 255) ∧
    (∀ (env2 : Env) (s2 : Engine) (L : PluginLayer), s2.tracks.length ≠ 0 →
      s2.layers[s2.layers.length - 1]? = some L →
      (execTokens env2 [['A', '2', '5', '5']] s2 (-1)).2.layers[s2.layers.length - 1]? =
        some { L with trigSource := 255 }) := by
  refine ⟨?_, ?_, rfl, ?_, ?_⟩
  · intro i L h hsrc
    have hi : i < s.layers.length := by
      by_contra hc
      rw [List.getElem?_eq_none (Nat.le_of_not_lt hc)] at h
      exact Option.noConfusion h
    exact (triggerSourceGo_spec env 255 force s.layers.length 0 s hwf i L h).1
      ⟨Nat.zero_le i, by omega, hsrc.symm⟩
  · intro i L h hsrc
    exact (triggerSourceGo_spec env 255 force s.layers.length 0 s hwf i L h).2
      (fun hc => hsrc hc.2.2.symm)
  · intro env2 s2 pid si spec hf hsucc
    by_cases hfull : s2.layers.length ≥ s2.maxPluginLayers
    · rw [newPluginLayer_layers_full env2 s2 pid si hfull] at hsucc
      simp at hsucc
    · by_cases hp : spec.ptype &&& PLUGIN_TYPE_REDRAW = 0
      · by_cases ht : s2.tracks.length = 0
        · rw [newPluginLayer_predraw_no_track env2 s2 pid si spec hfull hf hp ht]
            at hsucc
          simp at hsucc
        · rw [newPluginLayer_predraw_ok env2 s2 pid si spec hfull hf hp ht]
          simp [List.getElem?_concat_length, newLayerRec, MAX_BYTE_VALUE]
      · by_cases ht : s2.tracks.length ≥ s2.maxPluginTracks
        · rw [newPluginLayer_track_full env2 s2 pid si spec hfull hf hp ht] at hsucc
          simp at hsucc
        · cases ha : env2.allocOK with
          | false =>
            rw [newPluginLayer_alloc_fail env2 s2 pid si spec hfull hf hp ht ha]
              at hsucc
            simp at hsucc
          | true =>
            rw [newPluginLayer_redraw_ok env2 s2 pid si spec hfull hf hp ht ha]
            simp [List.getElem?_concat_length, newLayerRec, MAX_BYTE_VALUE]
  · intro env2 s2 L ht hL
    have hi : s2.layers.length - 1 < s2.layers.length := by
      by_contra hc
      rw [List.getElem?_eq_none (Nat.le_of_not_lt hc)] at hL
      exact Option.noConfusion hL
    simp [execTokens, execToken, ht, modifyTopLayer, hL, getNumValueClip, digitHead,
      atoiNat, digitsToNat, MAX_BYTE_VALUE, List.getElem?_set_eq_of_lt _ hi]

/-- C10 witness: on an engine with one never-assigned layer (source 255)
and one layer assigned to source 3, the call fires layer 0 and leaves
layer 1 untouched. -/
theorem claim10_trigger_disabled_sentinel_witness :
    layersWF engMix ∧
    ((triggerForceFrom testEnv engMix 255 7).layers[0]? =
       some { baseLayer with trigActive := true } ∧
     (triggerForceFrom testEnv engMix 255 7).layers[1]? =
       some { baseLayer with trigSource := 3 }) := by
  have hwf : layersWF engMix := by
    unfold layersWF
    decide
  have h := claim10_trigger_disabled_sentinel testEnv engMix 7 hwf
  exact ⟨hwf, h.1 0 baseLayer rfl rfl,
    h.2.1 1 { baseLayer with trigSource := 3 } rfl (by decide)⟩

/-- C8 counterexample.  The claim says `seg_index` staging persists
between `exec_cmd_str` calls, so that after "Y4" in one call an "E0" in a
later call creates its track with the incremented index.  In fact
`segindex` is a local of `execCmdStr` restarting at -1 on every call: the
track created by the later "E0" gets `segIndex` 0 (while the engine-wide
`segCount` staging of 4 did persist). -/
theorem claim8_counterexample :
    (execCmdStr testEnv engY4 "E0").1 = Status.success ∧
    (execCmdStr testEnv engY4 "E0").2.tracks.map (fun t => (t.segIndex, t.segCount)) =
      [(0, 4)] :=
  ⟨by decide, by decide⟩

/-- C8 amended.  Of the segment staging, `seg_offset` and `seg_count` are
engine-wide and persist between calls, but `seg_index` is a local variable
of `exec_cmd_str` that restarts at -1 on every call: an E command at the
start of any call — whatever Y commands earlier calls ran — creates its
track with `segIndex` 0; the Y increment is only visible to E commands
later in the same call (two "Y4" before "E0" in one call give index 1). -/
theorem claim8_seg_index_call_local (env : Env) (s : Engine) (args : List Char)
    (pid : Nat) (spec : PluginSpec)
    (hargs : getNumValueStrict args MAX_PLUGIN_VALUE = some pid)
    (hf : env.factory pid = some spec)
    (hp : spec.ptype &&& PLUGIN_TYPE_REDRAW ≠ 0)
    (hlay : s.layers.length < s.maxPluginLayers)
    (htr : s.tracks.length < s.maxPluginTracks)
    (ha : env.allocOK = true) :
    ((execTokens env [('E' :: args)] s (-1)).2.tracks[s.tracks.length]?).map
        (fun t => t.segIndex) = some 0 ∧
    (execCmdStr testEnv eng10 "Y4 Y4 E0").2.tracks.map (fun t => t.segIndex) = [1] := by
  constructor
  · have hr := newPluginLayer_redraw_ok env s pid 0 spec (Nat.not_le.mpr hlay) hf hp
      (Nat.not_le.mpr htr) ha
    simp [execTokens, execToken, hargs, hr, List.getElem?_concat_length, newTrackRec]
  · decide

/-- C8 witness: the amended theorem applied after a separate "Y4" call. -/
theorem claim8_seg_index_call_local_witness :
    (getNumValueStrict ['0'] MAX_PLUGIN_VALUE = some 0 ∧
     testEnv.factory 0 = some (trivialSpec PLUGIN_TYPE_REDRAW) ∧
     (trivialSpec PLUGIN_TYPE_REDRAW).ptype &&& PLUGIN_TYPE_REDRAW ≠ 0 ∧
     engY4.layers.length < engY4.maxPluginLayers ∧
     engY4.tracks.length < engY4.maxPluginTracks ∧
     testEnv.allocOK = true) ∧
    (((execTokens testEnv [['E', '0']] engY4 (-1)).2.tracks[engY4.tracks.length]?).map
        (fun t => t.segIndex) = some 0 ∧
     (execCmdStr testEnv eng10 "Y4 Y4 E0").2.tracks.map (fun t => t.segIndex) = [1]) :=
  ⟨⟨by decide, rfl, by decide, by decide, by decide, rfl⟩,
   claim8_seg_index_call_local testEnv engY4 ['0'] 0 (trivialSpec PLUGIN_TYPE_REDRAW)
     (by decide) rfl (by decide) (by decide) (by decide) rfl⟩

/-- **C4.** A layer whose trigger count stands at a finite k ≥ 0 is
auto-fired at most k more times across any sequence of `updateEffects`
calls: its count stays a non-negative number whose sum with the fires
already taken never exceeds the starting budget; once the count reaches 0,
one more update fires the layer no further and keeps the count at 0; and
a firing `CheckAutoTrigger` step (no rollover, honest `random`, delay of
at least one second, no uint32 overflow of the re-arm time) leaves
`trigTimeMsecs` armed at a time strictly after the update it fired in. -/
theorem claim4_auto_trigger_count (s : Engine) (i : Nat) (k : Nat)
    (hk : (s.layers[i]?).map (fun L => L.trigCount) = some ((k : Nat) : Int)) :
    (∀ envs : List Env,
      ∃ c2 : Int,
        ((runUpdates envs s).layers[i]?).map (fun L => L.trigCount) = some c2 ∧
        0 ≤ c2 ∧
        firesOf (runUpdates envs s) i + c2.toNat ≤ firesOf s i + k) ∧
    (∀ envs : List Env, firesOf (runUpdates envs s) i ≤ firesOf s i + k) ∧
    (∀ (envs : List Env) (e : Env),
      ((runUpdates envs s).layers[i]?).map (fun L => L.trigCount) = some 0 →
      firesOf (runUpdates (envs ++ [e]) s) i = firesOf (runUpdates envs s) i ∧
      ((runUpdates (envs ++ [e]) s).layers[i]?).map (fun L => L.trigCount) = some 0) ∧
    (∀ (e : Env) (s1 : Engine) (L1 : PluginLayer), randOK e →
      s1.layers[i]? = some L1 → L1.trigActive = true → L1.trigCount ≠ 0 →
      0 < L1.trigTimeMsecs → L1.trigTimeMsecs ≤ s1.timePrevUpdate →
      1 ≤ L1.trigDelayMin →
      s1.timePrevUpdate + 1000 * (L1.trigDelayMin + L1.trigDelayRange) < 4294967296 →
      ∃ m2 : Nat,
        ((autoTriggerStep e false s1 i).layers[i]?).map (fun L => L.trigTimeMsecs) =
          some m2 ∧ s1.timePrevUpdate < m2) := by
  have hmain : ∀ envs : List Env,
      ∃ c2 : Int,
        ((runUpdates envs s).layers[i]?).map (fun L => L.trigCount) = some c2 ∧
        0 ≤ c2 ∧
        firesOf (runUpdates envs s) i + c2.toNat ≤ firesOf s i + k := by
    intro envs
    obtain ⟨c2, hc2, h02, hm⟩ :=
      runUpdates_measure envs s i (k : Int) hk (by omega)
    exact ⟨c2, hc2, h02, by omega⟩
  refine ⟨hmain, ?_, ?_, ?_⟩
  · intro envs
    obtain ⟨c2, _, h02, hm⟩ := hmain envs
    omega
  · intro envs e h0map
    have hmono := firesOf_mono_updateEffects e (runUpdates envs s) i
    obtain ⟨c2, hc2, h02, hm⟩ :=
      updateEffects_measure e (runUpdates envs s) i 0 h0map le_rfl
    rw [runUpdates_concat]
    have hc20 : c2 = 0 := by omega
    rw [hc20] at hc2
    exact ⟨by omega, hc2⟩
  · exact fun e s1 L1 hr h1 hact hcnt harm hdue hmin hb =>
      autoTriggerStep_rearm e s1 i L1 hr h1 hact hcnt harm hdue hmin hb

/-- C4 witness: the theorem applied to the enabled armed single-layer
engine whose layer count was set to 2. -/
theorem claim4_auto_trigger_count_witness :
    ((engCount.layers[0]?).map (fun L => L.trigCount) = some ((2 : Nat) : Int)) ∧
    ((∀ envs : List Env,
      ∃ c2 : Int,
        ((runUpdates envs engCount).layers[0]?).map (fun L => L.trigCount) = some c2 ∧
        0 ≤ c2 ∧
        firesOf (runUpdates envs engCount) 0 + c2.toNat ≤ firesOf engCount 0 + 2) ∧
    (∀ envs : List Env,
      firesOf (runUpdates envs engCount) 0 ≤ firesOf engCount 0 + 2) ∧
    (∀ (envs : List Env) (e : Env),
      ((runUpdates envs engCount).layers[0]?).map (fun L => L.trigCount) = some 0 →
      firesOf (runUpdates (envs ++ [e]) engCount) 0 =
        firesOf (runUpdates envs engCount) 0 ∧
      ((runUpdates (envs ++ [e]) engCount).layers[0]?).map (fun L => L.trigCount) =
        some 0) ∧
    (∀ (e : Env) (s1 : Engine) (L1 : PluginLayer), randOK e →
      s1.layers[0]? = some L1 → L1.trigActive = true → L1.trigCount ≠ 0 →
      0 < L1.trigTimeMsecs → L1.trigTimeMsecs ≤ s1.timePrevUpdate →
      1 ≤ L1.trigDelayMin →
      s1.timePrevUpdate + 1000 * (L1.trigDelayMin + L1.trigDelayRange) < 4294967296 →
      ∃ m2 : Nat,
        ((autoTriggerStep e false s1 0).layers[0]?).map (fun L => L.trigTimeMsecs) =
          some m2 ∧ s1.timePrevUpdate < m2)) :=
  ⟨by decide, claim4_auto_trigger_count engCount 0 2 (by decide)⟩

/-- C6 counterexample: "Y4 E0 Y C100" stages a 4-pixel segment, creates a
track on it, restages the full 10-pixel strip, then runs C100.  The C
handler maps against the engine's *staged* segment count (now 10), not the
track's own `segCount` (still 4), so the track ends with pixCount = 10 >
segCount = 4, refuting pix_count ∈ [1, seg_count] for the track's own
segment length. -/
theorem claim6_counterexample :
    (execCmdStr testEnv eng10 "Y4 E0 Y C100").1 = Status.success ∧
    (execCmdStr testEnv eng10 "Y4 E0 Y C100").2.tracks.map
      (fun t => (t.draw.pixCount, t.segCount)) = [(10, 4)] := by decide

/-- **C6.** (corrected)  From any state satisfying the range invariant,
with well-behaved plugins, any command sequence leaves every track's draw
properties with pix_count in [1, num_pixels] (the engine-wide strip
length, not the track's own seg_count), pcent_white and pcent_bright in
[0, 100] and degree_hue in [0, MAX_DEGREES_HUE]; and a C command with a
digit argument clips the top track's new pix_count to the engine's
*staged* segment count `s.segCount`. -/
theorem claim6_draw_props_range (env : Env) (s : Engine)
    (toks : List (List Char)) (seg : Int) (args : List Char)
    (henv : envOK s.numPixels env) (hs : engOK s) :
    (∀ t ∈ (execTokens env toks s seg).2.tracks,
      1 ≤ t.draw.pixCount ∧ t.draw.pixCount ≤ s.numPixels ∧
      t.draw.pcentWhite ≤ MAX_PERCENTAGE ∧
      t.draw.pcentBright ≤ MAX_PERCENTAGE ∧
      t.draw.degreeHue ≤ MAX_DEGREES_HUE) ∧
    (digitHead args = true → 0 < s.tracks.length →
      ∃ t, (execToken env s ('C' :: args) seg).2.1.tracks[s.tracks.length - 1]? =
          some t ∧
        1 ≤ t.draw.pixCount ∧ t.draw.pixCount ≤ s.segCount) := by
  constructor
  · intro t ht
    obtain ⟨hok, hnp⟩ := execTokens_engOK env toks s seg henv hs
    have hthis := hok.2.2.2.2.2.2.1 t ht
    rw [hnp] at hthis
    exact ⟨hthis.1.1, hthis.1.2.1, hthis.1.2.2.1, hthis.1.2.2.2.1,
      hthis.1.2.2.2.2⟩
  · intro hdig htr
    have h0 : s.tracks.length ≠ 0 := by omega
    rw [execToken_C env s args seg h0]
    show ∃ t, (modifyTopDraw s _).tracks[s.tracks.length - 1]? = some t ∧ _
    unfold modifyTopDraw modifyTrack
    cases httop : s.tracks[s.tracks.length - 1]? with
    | none =>
      exfalso
      rw [List.getElem?_eq_none_iff] at httop
      omega
    | some t0 =>
      simp only []
      set v := mapValue (getNumValueClip args
          (t0.draw.pixCount * MAX_PERCENTAGE / s.segCount) MAX_PERCENTAGE)
        0 MAX_PERCENTAGE 1 s.segCount with hv
      refine ⟨{ t0 with draw := { t0.draw with pixCount := v } }, ?_, ?_, ?_⟩
      · show (s.tracks.set (s.tracks.length - 1) _)[s.tracks.length - 1]? = _
        rw [List.getElem?_set_eq_of_lt _ (by omega)]
      · rw [hv]
        exact mapValue_ge_one _ _
      · rw [hv]
        exact (mapValue_le _ _ hs.2.1 (getNumValueClip_digit_le _ _ _ hdig)).2

/-- C6 witness: the amended theorem applied to the enabled single-track
engine with the token list ["C50"]. -/
theorem claim6_draw_props_range_witness :
    (envOK engEnabled.numPixels testEnv ∧ engOK engEnabled) ∧
    ((∀ t ∈ (execTokens testEnv [['C', '5', '0']] engEnabled (-1)).2.tracks,
      1 ≤ t.draw.pixCount ∧ t.draw.pixCount ≤ engEnabled.numPixels ∧
      t.draw.pcentWhite ≤ MAX_PERCENTAGE ∧
      t.draw.pcentBright ≤ MAX_PERCENTAGE ∧
      t.draw.degreeHue ≤ MAX_DEGREES_HUE) ∧
    (digitHead ['5', '0'] = true → 0 < engEnabled.tracks.length →
      ∃ t, (execToken testEnv engEnabled ('C' :: ['5', '0'])
            (-1)).2.1.tracks[engEnabled.tracks.length - 1]? = some t ∧
        1 ≤ t.draw.pixCount ∧ t.draw.pixCount ≤ engEnabled.segCount)) :=
  ⟨⟨envOK_testEnv _, engOK_engEnabled⟩,
   claim6_draw_props_range testEnv engEnabled [['C', '5', '0']] (-1) ['5', '0']
     (envOK_testEnv _) engOK_engEnabled⟩

end PixelNut
